import Mathlib

/-!
Verification of the Maya-MCP command bridge.

The repository has two Python source files:

* `src/Client/maya_mcp.py` — the in-Maya TCP server (`class MayaMCPServer`):
  an accept loop, a per-connection handler that accumulates bytes and retries
  `json.loads` after every read, a dispatch table, and the Maya-side command
  handlers (`get_scene_info`, `create_object`, `modify_object`).
* `src/Server/maya_mcp/server.py` — the MCP-side client: `MayaConnection`
  (`connect`, `receive_full_response`, `send_command`), the module-level
  singleton `get_maya_connection`, and the tool adapters (`modify_object`,
  `create_object`, ...).

This file gives a shallow embedding of both sides and proves the frozen
claims about them.  The wire format is modelled at the character level
(`List Char`): the Python code serializes with `json.dumps` using its default
separators `", "` and `": "` and `ensure_ascii=True`, so for commands made of
printable ASCII the byte stream and the character stream coincide and byte
chunking equals character chunking.  `json.dumps` is embedded as `serJ` and
`json.loads` as `jloads` (a fuel-based recursive-descent parser).  Where the
embedded parser is more lenient than CPython's (it accepts leading zeros in
numbers and raw control characters inside strings) the divergence is outside
the image of the serializer, which is the only input the theorems feed it.
-/

/-! ### Characters

Special characters that the scanner of this development writes via their code
points; all other characters appear as plain literals. -/

/-- Double quote. -/
def qm : Char := Char.ofNat 34

/-- Backslash. -/
def bs : Char := Char.ofNat 92

/-- Left curly brace. -/
def lcur : Char := Char.ofNat 123

/-- Right curly brace. -/
def rcur : Char := Char.ofNat 125

/-- JSON whitespace, as skipped by `json.loads` between tokens. -/
def isWsChar (c : Char) : Bool :=
  if c = ' ' then true
  else if c = Char.ofNat 9 then true
  else if c = Char.ofNat 10 then true
  else if c = Char.ofNat 13 then true
  else false

/-- Decimal digit test. -/
def isDigitChar (c : Char) : Bool :=
  decide (48 ≤ c.toNat) && decide (c.toNat ≤ 57)

/-- Drop leading JSON whitespace. -/
def skipWs : List Char → List Char
  | [] => []
  | c :: t => if isWsChar c then skipWs t else c :: t

/-! ### Strings on the wire

`json.dumps` escapes `"` and `\`; the commands and responses this bridge
exchanges contain no control or non-ASCII characters, for which CPython would
emit `\uXXXX` forms (the claim theorems restrict themselves to printable
ASCII payloads accordingly, see `printableJ`). -/

/-- Escape one character the way `json.dumps` writes it (printable ASCII case). -/
def escChar (c : Char) : List Char :=
  if c = qm then [bs, qm] else if c = bs then [bs, bs] else [c]

/-- Escape a whole string body. -/
def escStr : List Char → List Char
  | [] => []
  | c :: t => escChar c ++ escStr t

/-- Parse a string body after the opening quote: content characters up to the
first unescaped quote, undoing `\"` and `\\`. -/
def parseStrBody : List Char → Option (List Char × List Char)
  | [] => none
  | c :: t =>
    if c = qm then some ([], t)
    else if c = bs then
      match t with
      | [] => none
      | d :: u =>
        if d = qm ∨ d = bs then (parseStrBody u).map (fun p => (d :: p.1, p.2)) else none
    else (parseStrBody t).map (fun p => (c :: p.1, p.2))

/-! ### Numbers on the wire -/

/-- Longest run of leading decimal digits, and the remainder. -/
def takeDigits : List Char → List Char × List Char
  | [] => ([], [])
  | c :: t =>
    if isDigitChar c then
      match takeDigits t with
      | (ds, r) => (c :: ds, r)
    else ([], c :: t)

/-- Numeric value of a digit run. -/
def digitsToNat (ds : List Char) : Nat :=
  ds.foldl (fun a c => 10 * a + (c.toNat - 48)) 0

/-- The character for the digit `d < 10`. -/
def digitChar (d : Nat) : Char := Char.ofNat (48 + d)

/-- Decimal digits of a natural number, most significant first; structural on
an explicit fuel so that it evaluates by kernel reduction. -/
def natDigitsFuel : Nat → Nat → List Char
  | 0, _ => []
  | f + 1, n => if n < 10 then [digitChar n] else natDigitsFuel f (n / 10) ++ [digitChar (n % 10)]

/-- Decimal digits of a natural number. -/
def natDigits (n : Nat) : List Char := natDigitsFuel (n + 1) n

/-- Decimal form of an integer: optional minus sign, then digits. -/
def serInt (n : Int) : List Char :=
  if n < 0 then '-' :: natDigits n.natAbs else natDigits n.toNat

/-! ### JSON values

The values `json.dumps`/`json.loads` move across this bridge: objects keep
their member order (Python dicts preserve insertion order), numbers are
modelled as integers (the payloads of the bridge's commands are integral;
floating point is outside the model). -/

mutual
inductive J where
  | null : J
  | bool (b : Bool) : J
  | num (n : Int) : J
  | str (s : List Char) : J
  | arr (xs : JList) : J
  | obj (fs : JObj) : J
inductive JList where
  | nil : JList
  | cons (v : J) (t : JList) : JList
inductive JObj where
  | nil : JObj
  | cons (k : List Char) (v : J) (t : JObj) : JObj
end

/-! ### Serialization (`json.dumps`, default separators `", "` and `": "`) -/

mutual
/-- Serialize a value, as `json.dumps` writes it. -/
def serJ : J → List Char
  | J.null => 'n' :: 'u' :: 'l' :: 'l' :: []
  | J.bool true => 't' :: 'r' :: 'u' :: 'e' :: []
  | J.bool false => 'f' :: 'a' :: 'l' :: 's' :: 'e' :: []
  | J.num n => serInt n
  | J.str s => qm :: (escStr s ++ [qm])
  | J.arr xs => '[' :: serArr xs
  | J.obj fs => lcur :: serObj fs
termination_by structural v => v

/-- Array body after the opening bracket. -/
def serArr : JList → List Char
  | JList.nil => [']']
  | JList.cons v t => serJ v ++ serArrTail t
termination_by structural xs => xs

/-- Continuation of an array body after one element: either the closing
bracket or `", "` and the next elements. -/
def serArrTail : JList → List Char
  | JList.nil => [']']
  | JList.cons v t => ',' :: ' ' :: (serJ v ++ serArrTail t)
termination_by structural xs => xs

/-- Object body after the opening brace. -/
def serObj : JObj → List Char
  | JObj.nil => [rcur]
  | JObj.cons k v t => (qm :: (escStr k ++ [qm])) ++ (':' :: ' ' :: (serJ v ++ serObjTail t))
termination_by structural fs => fs

/-- Continuation of an object body after one member. -/
def serObjTail : JObj → List Char
  | JObj.nil => [rcur]
  | JObj.cons k v t =>
    ',' :: ' ' :: ((qm :: (escStr k ++ [qm])) ++ (':' :: ' ' :: (serJ v ++ serObjTail t)))
termination_by structural fs => fs
end

/-- One object member, `"key": value` (how `serObj` opens on a member). -/
def serMem (k : List Char) (v : J) : List Char :=
  (qm :: (escStr k ++ [qm])) ++ (':' :: ' ' :: serJ v)

/-! ### Size measure, used as a fuel bound for the parser -/

mutual
/-- Number of parser calls needed for a value. -/
def sizeJ : J → Nat
  | J.null => 1
  | J.bool _ => 1
  | J.num _ => 1
  | J.str _ => 1
  | J.arr xs => 1 + sizeL xs
  | J.obj fs => 1 + sizeO fs
termination_by structural v => v

/-- Number of parser calls needed for array elements. -/
def sizeL : JList → Nat
  | JList.nil => 0
  | JList.cons v t => 1 + sizeJ v + sizeL t
termination_by structural xs => xs

/-- Number of parser calls needed for object members. -/
def sizeO : JObj → Nat
  | JObj.nil => 0
  | JObj.cons _ v t => 1 + sizeJ v + sizeO t
termination_by structural fs => fs
end

/-! ### Parsing (`json.loads`)

A fuel-based recursive-descent parser over the character list.  Each of the
three mutually recursive functions spends one unit of fuel per call, so
`sizeJ v` fuel suffices for the serialization of `v` (proved below) and the
functions are structural on the fuel, hence kernel-reducible. -/

/-- Match an expected character sequence at the front of the input and
return what follows it. -/
def expectChars : List Char → List Char → Option (List Char)
  | [], s => some s
  | _ :: _, [] => none
  | e :: es, c :: t => if c = e then expectChars es t else none

mutual
/-- Parse one JSON value after skipping leading whitespace; return it with
the unconsumed remainder. -/
def parseVal : Nat → List Char → Option (J × List Char)
  | 0, _ => none
  | fuel + 1, s =>
    match skipWs s with
    | [] => none
    | c :: t =>
      if c = 'n' then (expectChars ['u', 'l', 'l'] t).map (fun r => (J.null, r))
      else if c = 't' then (expectChars ['r', 'u', 'e'] t).map (fun r => (J.bool true, r))
      else if c = 'f' then (expectChars ['a', 'l', 's', 'e'] t).map (fun r => (J.bool false, r))
      else if c = qm then (parseStrBody t).map (fun p => (J.str p.1, p.2))
      else if c = '[' then
        (match skipWs t with
         | [] => none
         | d :: u =>
           if d = ']' then some (J.arr JList.nil, u)
           else (parseItems fuel (d :: u)).map (fun p => (J.arr p.1, p.2)))
      else if c = lcur then
        (match skipWs t with
         | [] => none
         | d :: u =>
           if d = rcur then some (J.obj JObj.nil, u)
           else (parseMems fuel (d :: u)).map (fun p => (J.obj p.1, p.2)))
      else if c = '-' then
        (match takeDigits t with
         | ([], _) => none
         | (ds, r) => some (J.num (-(Int.ofNat (digitsToNat ds))), r))
      else if isDigitChar c then
        (match takeDigits t with
         | (ds, r) => some (J.num (Int.ofNat (digitsToNat (c :: ds))), r))
      else none
termination_by structural fuel => fuel

/-- Parse one-or-more comma-separated array elements up to the closing
bracket (the empty array is handled by `parseVal`). -/
def parseItems : Nat → List Char → Option (JList × List Char)
  | 0, _ => none
  | fuel + 1, s =>
    match parseVal fuel s with
    | none => none
    | some (v, r) =>
      match skipWs r with
      | [] => none
      | c :: r2 =>
        if c = ',' then
          (match parseItems fuel r2 with
           | none => none
           | some (xs, r3) => some (JList.cons v xs, r3))
        else if c = ']' then some (JList.cons v JList.nil, r2)
        else none
termination_by structural fuel => fuel

/-- Parse one-or-more comma-separated object members up to the closing brace
(the empty object is handled by `parseVal`). -/
def parseMems : Nat → List Char → Option (JObj × List Char)
  | 0, _ => none
  | fuel + 1, s =>
    match s with
    | [] => none
    | c :: t =>
      if c = qm then
        match parseStrBody t with
        | none => none
        | some (k, r1) =>
          match skipWs r1 with
          | [] => none
          | d :: r2 =>
            if d = ':' then
              (match parseVal fuel r2 with
               | none => none
               | some (v, r3) =>
                 match skipWs r3 with
                 | [] => none
                 | e :: r4 =>
                   if e = ',' then
                     (match parseMems fuel (skipWs r4) with
                      | none => none
                      | some (fs, r5) => some (JObj.cons k v fs, r5))
                   else if e = rcur then some (JObj.cons k v JObj.nil, r4)
                   else none)
            else none
      else none
termination_by structural fuel => fuel
end

/-- The embedding of `json.loads`: parse the whole input, requiring that only
whitespace remains ("Extra data" is a parse error in CPython too). -/
def jloads (s : List Char) : Option J :=
  match parseVal (s.length + 1) s with
  | some (v, r) => if skipWs r = [] then some v else none
  | none => none

/-! ### Prefix relation and payload wellformedness -/

/-- One list is an initial segment of another. -/
def isPre (p s : List Char) : Prop := ∃ q, p ++ q = s

/-- Proper initial segment. -/
def strictPre (p s : List Char) : Prop := isPre p s ∧ p ≠ s

/-- A remainder that cannot extend a serialized number: empty, or starting
with a non-digit.  Every delimiter the serializer writes after a value
(`,`, `]`, the closing brace, end of input) qualifies. -/
def headNonDigit : List Char → Prop
  | [] => True
  | c :: _ => isDigitChar c = false

/-- Printable ASCII, the range `json.dumps` emits verbatim (everything else
is written as a `\uXXXX` escape, which is outside this model). -/
def printableChar (c : Char) : Bool :=
  decide (32 ≤ c.toNat) && decide (c.toNat ≤ 126)

mutual
/-- All strings and keys of a value are printable ASCII. -/
def printableJ : J → Bool
  | J.null => true
  | J.bool _ => true
  | J.num _ => true
  | J.str s => s.all printableChar
  | J.arr xs => printableL xs
  | J.obj fs => printableO fs
termination_by structural v => v

/-- Printability for array elements. -/
def printableL : JList → Bool
  | JList.nil => true
  | JList.cons v t => printableJ v && printableL t
termination_by structural xs => xs

/-- Printability for object members. -/
def printableO : JObj → Bool
  | JObj.nil => true
  | JObj.cons k v t => k.all printableChar && printableJ v && printableO t
termination_by structural fs => fs
end

/-- Whether a value is a number (the only kind whose serialization has
proper prefixes that themselves parse). -/
def isNumJ : J → Bool
  | J.num _ => true
  | _ => false

/-! ### JSON object access -/

/-- Lookup in an object, last occurrence winning, as a Python dict built by
`json.loads` behaves (later duplicate keys overwrite earlier ones). -/
def jget : JObj → List Char → Option J
  | JObj.nil, _ => none
  | JObj.cons k v t, key =>
    match jget t key with
    | some r => some r
    | none => if k = key then some v else none

/-- The member names of an object, in order. -/
def jkeys : JObj → List (List Char)
  | JObj.nil => []
  | JObj.cons k _ t => k :: jkeys t

/-- Length of an array body. -/
def jlen : JList → Nat
  | JList.nil => 0
  | JList.cons _ t => 1 + jlen t

/-- Build an array body from a Lean list. -/
def toJList : List J → JList
  | [] => JList.nil
  | v :: t => JList.cons v (toJList t)

/-- Whether every element satisfies a test. -/
def jall (p : J → Bool) : JList → Bool
  | JList.nil => true
  | JList.cons v t => p v && jall p t

/-! ### Wire keys and command names (string constants) -/

def kCommand : List Char := "command".data
def kParams : List Char := "params".data
def kStatus : List Char := "status".data
def kSuccess : List Char := "success".data
def kError : List Char := "error".data
def kMessage : List Char := "message".data
def kResult : List Char := "result".data
def kName : List Char := "name".data
def kType : List Char := "type".data
def kLocation : List Char := "location".data
def kRotation : List Char := "rotation".data
def kScale : List Char := "scale".data
def kVisible : List Char := "visible".data
def kVisibility : List Char := "visibility".data
def kEnabled : List Char := "enabled".data
def kAbout : List Char := "about".data
def kGetSceneInfo : List Char := "get_scene_info".data
def kCreateObject : List Char := "create_object".data
def kModifyObject : List Char := "modify_object".data
def kDeleteObject : List Char := "delete_object".data
def kObjects : List Char := "objects".data
def kObjectCount : List Char := "object_count".data
def kMaterialsCount : List Char := "materials_count".data
def kPCube1 : List Char := "pCube1".data
def kUntitled : List Char := "untitled".data
def kLocalhost : List Char := "localhost".data

/-- Message of `Exception("Failed to connect to Maya")` in `get_maya_connection`. -/
def kFailedConnect : List Char := "Failed to connect to Maya".data

/-- Default of `response.get("message", "Unknown error from Maya")` in `send_command`. -/
def kUnknownMaya : List Char := "Unknown error from Maya".data

/-- Stands for the message of the `AttributeError` Python raises when `.get`
is called on a non-dict (the exact interpolated text is host-dependent and
is abstracted to this constant). -/
def kAttrGet : List Char := "object has no attribute get".data

/-! ### Maya-side model (`src/Client/maya_mcp.py`, `class MayaMCPServer`)

The Maya scene itself is reached only through `maya.cmds` calls.  The reads
the handlers perform (`cmds.ls`, `cmds.file`, `cmds.xform` queries,
`cmds.nodeType`) are modelled by a `Scene` value; the writes performed by
`create_object` (`cmds.polyCube`, `cmds.xform`) are scene side effects that
do not feed the returned result, so they appear only as one abstract outcome
`HostFx`: `Except.ok ()` when the `cmds` calls succeed, `Except.error m`
when one of them raises with message `m`.  Object coordinates are modelled
as integers; on integers Python's `round(x, 2)` is the identity, exactly as
the model states. -/

/-- One transform node, as the handlers read it back. -/
structure SceneObject where
  name : List Char
  nodeType : List Char
  x : Int
  y : Int
  z : Int

/-- The Maya scene state the handlers read. -/
structure Scene where
  fileName : List Char
  transforms : List SceneObject
  materials : List (List Char)

/-- Outcome of the `maya.cmds` mutation calls inside `create_object`. -/
def HostFx := Except (List Char) Unit

/-- Scene name: `cmds.file(q=True, sn=True, shn=True) or "untitled"` (the
empty string is falsy, so it also yields `"untitled"`). -/
def scene_name (s : Scene) : List Char :=
  if s.fileName = [] then kUntitled else s.fileName

/-- One entry of the `objects` list built by `get_scene_info`: on integer
coordinates `round(p, 2)` returns its argument unchanged. -/
def scene_entry (o : SceneObject) : J :=
  J.obj (JObj.cons kName (J.str o.name)
    (JObj.cons kType (J.str o.nodeType)
      (JObj.cons kLocation
        (J.arr (JList.cons (J.num o.x) (JList.cons (J.num o.y) (JList.cons (J.num o.z) JList.nil))))
        JObj.nil)))

/-- Embedding of `MayaMCPServer.get_scene_info`: scene name, transform count,
the first ten transforms (the loop breaks at `i >= 10`), material count. -/
def MayaMCPServer.get_scene_info (s : Scene) : J :=
  J.obj (JObj.cons kName (J.str (scene_name s))
    (JObj.cons kObjectCount (J.num (Int.ofNat s.transforms.length))
      (JObj.cons kObjects (J.arr (toJList ((s.transforms.take 10).map scene_entry)))
        (JObj.cons kMaterialsCount (J.num (Int.ofNat s.materials.length)) JObj.nil))))

/-- Default of `params.get("location", (0, 0, 0))`; `json.dumps` writes the
tuple as an array. -/
def zeroTriple : J :=
  J.arr (JList.cons (J.num 0) (JList.cons (J.num 0) (JList.cons (J.num 0) JList.nil)))

/-- Embedding of `MayaMCPServer.create_object`.  The source reads
`name = params.get("type", "pCube1")` and `location`, `rotation`, `scale`
(the latter two only drive `cmds.xform` scene mutations), then returns
`{"name": name, "location": location}` built from those request values —
nothing is queried back from the scene. -/
def MayaMCPServer.create_object (ps : JObj) : J :=
  J.obj (JObj.cons kName ((jget ps kType).getD (J.str kPCube1))
    (JObj.cons kLocation ((jget ps kLocation).getD zeroTriple) JObj.nil))

/-- Response `{"status": "success", "result": r}`. -/
def successResp (r : J) : J :=
  J.obj (JObj.cons kStatus (J.str kSuccess) (JObj.cons kResult r JObj.nil))

/-- Response `{"status": "error", "message": m}`. -/
def errorResp (m : List Char) : J :=
  J.obj (JObj.cons kStatus (J.str kError) (JObj.cons kMessage (J.str m) JObj.nil))

/-- Value of `command.get("command")` when it is a string.  A missing value,
or a hashable non-string one (number, boolean, null), follows the
unknown-name path exactly: the mutating-set test and `handlers.get` find no
match and dispatch returns `None`.  An unhashable value (a JSON object or
array) instead raises `TypeError` at `handlers.get`, which the
`try`/`except` of `execute_command` turns into an error response; the model
maps those to the unknown-name path too, a divergence confined to
non-Commands (the wire data model fixes the name as a string), outside the
scope of the claims below. -/
def cmd_name (fs : JObj) : Option (List Char) :=
  match jget fs kCommand with
  | some (J.str s) => some s
  | _ => none

/-- Embedding of `MayaMCPServer._execute_command_internal`: the dispatch table
holds exactly `get_scene_info` and `create_object`; with a registered handler
the result is wrapped as a success response, otherwise the function falls off
its end and returns Python `None` (here `Option.none` inside `Except.ok`).
`create_object` is the only handler whose `maya.cmds` calls can raise
(`get_scene_info` catches internally); `params.get` raises when `"params"`
is present but not a dict. -/
def MayaMCPServer.execute_command_internal (scene : Scene) (host : HostFx) (fs : JObj) :
    Except (List Char) (Option J) :=
  match cmd_name fs with
  | some n =>
    if n = kGetSceneInfo then Except.ok (some (successResp (MayaMCPServer.get_scene_info scene)))
    else if n = kCreateObject then
      match jget fs kParams with
      | some (J.obj ps) =>
        (match host with
         | Except.ok _ => Except.ok (some (successResp (MayaMCPServer.create_object ps)))
         | Except.error m => Except.error m)
      | none =>
        (match host with
         | Except.ok _ => Except.ok (some (successResp (MayaMCPServer.create_object JObj.nil)))
         | Except.error m => Except.error m)
      | some _ => Except.error kAttrGet
    else Except.ok none
  | none => Except.ok none

/-- Which route `execute_command` takes to the internal dispatch: through the
synchronous `maya.utils.executeInMainThreadWithResult` primitive, or a plain
call on its caller's thread.  Its caller is `execute_wrapper`, which
`_handle_client` queues through `maya.utils.executeDeferred` (maya_mcp.py:151),
so either way the dispatch runs on Maya's main thread — the placement model
below makes that explicit. -/
inductive ExecPath where
  | mainThread : ExecPath
  | direct : ExecPath

/-- The threads of the program: Maya's main (owner) thread, and the
per-connection socket thread running `_handle_client`. -/
inductive MThread where
  | owner : MThread
  | handler : MThread

/-- How a piece of work is placed on a thread: queued through
`maya.utils.executeDeferred`, run through the synchronous
`maya.utils.executeInMainThreadWithResult`, or a plain call on the current
thread. -/
inductive Placement where
  | deferred : Placement
  | mainThreadSync : Placement
  | inline : Placement

/-- The thread a placed piece of work runs on, given the placing thread:
`executeDeferred` queues its callable for Maya's idle loop on the main
thread, `executeInMainThreadWithResult` runs its callable on the main
thread, and a plain call stays where it is (per the `maya.utils`
documentation). -/
def runsOn : Placement → MThread → MThread
  | Placement.deferred, _ => MThread.owner
  | Placement.mainThreadSync, _ => MThread.owner
  | Placement.inline, t => t

/-- Whether the placing thread waits for the placed work to finish:
`executeDeferred` returns immediately, the other two return the callable's
result (per the `maya.utils` documentation). -/
def blocksCaller : Placement → Bool
  | Placement.deferred => false
  | Placement.mainThreadSync => true
  | Placement.inline => true

/-- The placement each `ExecPath` route gives the internal dispatch. -/
def ExecPath.placement : ExecPath → Placement
  | ExecPath.mainThread => Placement.mainThreadSync
  | ExecPath.direct => Placement.inline

/-- The placement `_handle_client` gives every parsed command's whole
dispatch: `execute_wrapper` — `execute_command` through the reply write — is
handed to `maya.utils.executeDeferred` (maya_mcp.py:151), whatever the
command's name. -/
def wrapperPlacement : Placement := Placement.deferred

/-- The fixed mutating set tested by `MayaMCPServer.execute_command`. -/
def mutatingCommands : List (List Char) := [kCreateObject, kModifyObject, kDeleteObject]

/-- Embedding of `MayaMCPServer.execute_command`: chooses the execution path
by membership of the command name in the mutating set, runs the internal
dispatch (whose value `executeInMainThreadWithResult` passes through
unchanged), and converts a raised exception into an error response via the
surrounding `try`/`except`.  A non-dict command raises at `command.get`
before any routing. -/
def MayaMCPServer.execute_command (scene : Scene) (host : HostFx) : J → ExecPath × Option J
  | J.obj fs =>
    (match cmd_name fs with
     | some n => if n ∈ mutatingCommands then ExecPath.mainThread else ExecPath.direct
     | none => ExecPath.direct,
     match MayaMCPServer.execute_command_internal scene host fs with
     | Except.ok r => r
     | Except.error m => some (errorResp m))
  | _ => (ExecPath.direct, some (errorResp kAttrGet))

/-- The thread the internal dispatch for a command runs on: the wrapper is
placed from the connection's handler thread by `wrapperPlacement`, and the
dispatch is placed from wherever the wrapper runs by the command's
`ExecPath`. -/
def dispatchThread (scene : Scene) (host : HostFx) (c : J) : MThread :=
  runsOn (ExecPath.placement (MayaMCPServer.execute_command scene host c).1)
    (runsOn wrapperPlacement MThread.handler)

/-- The bytes `execute_wrapper` writes back for one command:
`json.dumps(response)`, where Python `None` serializes as `null`. -/
def serverReply (scene : Scene) (host : HostFx) (c : J) : List Char :=
  serJ (match (MayaMCPServer.execute_command scene host c).2 with
        | some r => r
        | none => J.null)

/-- Embedding of the receive loop of `MayaMCPServer._handle_client`: each
`recv` result is appended to the buffer and `json.loads` is retried; on a
parse failure nothing is sent back and reading continues; on success the
buffer is cleared and the command's `execute_wrapper` is queued through
`maya.utils.executeDeferred` (maya_mcp.py:151) — the loop does not block on
it and keeps reading; the hand-off itself is modelled by `wrapperPlacement`
and `dispatchThread`, this function by the values: it pairs every dispatched
command with the reply `execute_wrapper` writes for it, in order.
(`executeDeferred` runs the queued wrappers first-in first-out on Maya's
main thread, so the per-connection reply order is the dispatch order.) -/
def MayaMCPServer.handle_client (scene : Scene) (host : HostFx) :
    List Char → List (List Char) → List (J × List Char)
  | _, [] => []
  | buf, d :: rest =>
    match jloads (buf ++ d) with
    | some c =>
      (c, serverReply scene host c) :: MayaMCPServer.handle_client scene host [] rest
    | none => MayaMCPServer.handle_client scene host (buf ++ d) rest

/-! ### MCP-side model (`src/Server/maya_mcp/server.py`) -/

/-- The `MayaConnection` dataclass (its live socket is implicit: a held
connection is a `some` value in the states below). -/
structure MayaConnection where
  host : List Char
  port : Nat

/-- One `sock.recv` outcome inside `receive_full_response`: a chunk of bytes
(empty meaning the peer closed), a `socket.timeout`, or a connection error
(`ConnectionError`/`BrokenPipeError`/`ConnectionResetError`, which the source
re-raises to the caller). -/
inductive RecvEvent where
  | chunk (d : List Char) : RecvEvent
  | timeout : RecvEvent
  | connErr : RecvEvent

/-- The distinct failures `receive_full_response` can raise. -/
inductive RErr where
  | closedNoData : RErr
  | incomplete : RErr
  | noData : RErr
  | connLost : RErr

/-- Whether a receive failure is the "Incomplete JSON response received" one. -/
def RErr.isIncomplete : RErr → Bool
  | RErr.incomplete => true
  | _ => false

/-- The code after the receive loop exits by `break`: with no chunks raise
`Exception("No data received")`; otherwise return the accumulated data if it
parses and raise `Exception("Incomplete JSON response received")` if not. -/
def finish_recv (acc : List Char) : Except RErr (List Char) :=
  if acc = [] then Except.error RErr.noData
  else
    match jloads acc with
    | some _ => Except.ok acc
    | none => Except.error RErr.incomplete

/-- Embedding of `MayaConnection.receive_full_response`, driven by the list
of successive `recv` outcomes.  `none` means every event was consumed with
the loop still blocked on the next `recv`.  An empty chunk with nothing
accumulated raises `Exception("Connection closed before receiving any
data")`; an empty chunk with data accumulated, or a timeout, breaks to
`finish_recv`; after appending a non-empty chunk the accumulated bytes are
returned as soon as they parse as JSON. -/
def MayaConnection.receive_full_response :
    List Char → List RecvEvent → Option (Except RErr (List Char))
  | _, [] => none
  | acc, RecvEvent.chunk d :: rest =>
    if d = [] then
      if acc = [] then some (Except.error RErr.closedNoData) else some (finish_recv acc)
    else
      match jloads (acc ++ d) with
      | some _ => some (Except.ok (acc ++ d))
      | none => MayaConnection.receive_full_response (acc ++ d) rest
  | acc, RecvEvent.timeout :: _ => some (finish_recv acc)
  | _, RecvEvent.connErr :: _ => some (Except.error RErr.connLost)

/-- The failures `send_command` can raise. -/
inductive SendFail where
  | notConnected : SendFail
  | writeErr : SendFail
  | recvErr (e : RErr) : SendFail
  | attrErr : SendFail
  | mayaErr (m : J) : SendFail

/-- The test `response.get("status") == "error"` on a parsed response
object. -/
def statusIsError (fs : JObj) : Bool :=
  match jget fs kStatus with
  | some (J.str s) => decide (s = kError)
  | _ => false

/-- Embedding of `MayaConnection.send_command`, parameterized by the
transport outcomes of this call: whether `sendall` succeeded and what
`receive_full_response` produced.  The returned state is the value of
`self.sock` afterwards: the source's `except` clause sets it to `None` on
any raised failure — including a `status == "error"` response, whose
carried `message` (default `"Unknown error from Maya"`) is re-raised.  On
success the connection is kept and `response.get("result", {})` is
returned.  A non-dict response raises at `response.get` (`attrErr`). -/
def MayaConnection.send_command (st : Option MayaConnection) (writeOk : Bool)
    (recv : Except RErr (List Char)) : Option MayaConnection × Except SendFail J :=
  match st with
  | none => (none, Except.error SendFail.notConnected)
  | some c =>
    if writeOk = false then (none, Except.error SendFail.writeErr)
    else
      match recv with
      | Except.error e => (none, Except.error (SendFail.recvErr e))
      | Except.ok data =>
        match jloads data with
        | none => (none, Except.error SendFail.attrErr)
        | some (J.obj fs) =>
          if statusIsError fs then
            (none, Except.error (SendFail.mayaErr ((jget fs kMessage).getD (J.str kUnknownMaya))))
          else (some c, Except.ok ((jget fs kResult).getD (J.obj JObj.nil)))
        | some _ => (none, Except.error SendFail.attrErr)

/-- What `get_maya_connection` hands back: the connection object, or — on the
probe-success path — the plain JSON value `result.get("enabled", False)`. -/
inductive GetConnResult where
  | conn (c : MayaConnection) : GetConnResult
  | jsonVal (v : J) : GetConnResult

/-- Whether a `get_maya_connection` return value is a connection object. -/
def GetConnResult.isConn : GetConnResult → Bool
  | GetConnResult.conn _ => true
  | GetConnResult.jsonVal _ => false

/-- The connection `MayaConnection(host="localhost", port=9876)` that
`get_maya_connection` constructs. -/
def freshConn : MayaConnection := { host := kLocalhost, port := 9876 }

/-- The creation half of `get_maya_connection`: construct the connection,
and on `connect()` returning false null the global and raise. -/
def get_maya_connection_fresh (connectOk : Bool) :
    Option MayaConnection × Except (List Char) GetConnResult :=
  if connectOk then (some freshConn, Except.ok (GetConnResult.conn freshConn))
  else (none, Except.error kFailedConnect)

/-- Embedding of `get_maya_connection`, parameterized by the current global
`_maya_connection` and the outcomes of this call (`probe` is what
`send_command("about")` returns, `connectOk` what `connect()` would return).
With a held connection and a successful probe the source executes
`return result.get("enabled", False)` — the JSON value, not the connection;
a failed probe (or a probe result on which `.get` raises) tears the
connection down and falls through to fresh creation. -/
def get_maya_connection (st : Option MayaConnection)
    (probe : Except (List Char) J) (connectOk : Bool) :
    Option MayaConnection × Except (List Char) GetConnResult :=
  match st with
  | some c =>
    match probe with
    | Except.ok (J.obj fs) =>
      (some c, Except.ok (GetConnResult.jsonVal ((jget fs kEnabled).getD (J.bool false))))
    | _ => get_maya_connection_fresh connectOk
  | none => get_maya_connection_fresh connectOk

/-- Append an optional member the way the tool adapters build `params`
(`if x is not None: params["k"] = x`). -/
def optMember (k : List Char) : Option J → List (List Char × J)
  | some v => [(k, v)]
  | none => []

/-- Embedding of the `params` mapping built by the MCP tool `modify_object`
(src/Server/maya_mcp/server.py): `{"name": name}` plus each optional
argument that is not `None`, in source order — and the visibility flag is
stored under the key `"visible"`. -/
def modify_object_params (name : List Char) (location rotation scale : Option J)
    (visible : Option Bool) : List (List Char × J) :=
  (kName, J.str name) :: (optMember kLocation location ++ optMember kRotation rotation ++
    optMember kScale scale ++ optMember kVisible (visible.map J.bool))

/-! ### Decidable equality, for concrete evaluation in witnesses -/

deriving instance DecidableEq for J
deriving instance DecidableEq for RErr
deriving instance DecidableEq for RecvEvent
deriving instance DecidableEq for Except
deriving instance DecidableEq for MayaConnection
deriving instance DecidableEq for GetConnResult
deriving instance DecidableEq for SendFail
deriving instance DecidableEq for ExecPath
deriving instance DecidableEq for MThread
deriving instance DecidableEq for Placement

/-! ### Concrete values used by witnesses and counterexamples -/

/-- The command `{"command": "about"}` (as a JSON value). -/
def aboutCmd : J := J.obj (JObj.cons kCommand (J.str kAbout) JObj.nil)

/-- The command `{"command": "ping", "params": {}}` (no handler is registered
for it; used to drive the loop theorems on concrete input). -/
def pingCmd : J :=
  J.obj (JObj.cons kCommand (J.str "ping".data) (JObj.cons kParams (J.obj JObj.nil) JObj.nil))

/-- An empty untitled scene. -/
def scene0 : Scene := { fileName := [], transforms := [], materials := [] }

/-- A successful host (no `maya.cmds` call raises). -/
def hostOk : HostFx := Except.ok ()

/-- The fields of `{"command": "about"}`. -/
def aboutFs : JObj := JObj.cons kCommand (J.str kAbout) JObj.nil

/-- The fields of `{"command": "ping", "params": {}}`. -/
def pingFs : JObj :=
  JObj.cons kCommand (J.str "ping".data) (JObj.cons kParams (J.obj JObj.nil) JObj.nil)

/-- The fields of `{"command": "create_object", "params": {}}`. -/
def createFs : JObj :=
  JObj.cons kCommand (J.str kCreateObject) (JObj.cons kParams (J.obj JObj.nil) JObj.nil)

/-- The fields of `{"command": "modify_object"}`. -/
def modifyFs : JObj := JObj.cons kCommand (J.str kModifyObject) JObj.nil

/-- The fields of `{"command": "get_scene_info"}`. -/
def getSceneFs : JObj := JObj.cons kCommand (J.str kGetSceneInfo) JObj.nil

/-- The fields of a JSON object value (and `JObj.nil` on any other value). -/
def objFields : J → JObj
  | J.obj fs => fs
  | _ => JObj.nil

/-- Whether a JSON value is an object whose keys are exactly
`name`, `type`, `location` — the shape of one `objects` entry. -/
def entryShaped (e : J) : Bool :=
  match e with
  | J.obj fs => decide (jkeys fs = [kName, kType, kLocation])
  | _ => false

/-! ## Basic facts about characters, whitespace, and string bodies -/

/-- A digit character differs from any concrete non-digit character. -/
theorem ne_of_digit {c d : Char} (h : isDigitChar c = true) (hd : isDigitChar d = false) :
    c ≠ d := by
  intro he
  rw [he, hd] at h
  exact Bool.false_ne_true h

/-- Digit characters are not JSON whitespace. -/
theorem isWsChar_of_digit {c : Char} (h : isDigitChar c = true) : isWsChar c = false := by
  simp only [isWsChar]
  split_ifs with h1 h2 h3 h4
  · subst h1; revert h; decide
  · subst h2; revert h; decide
  · subst h3; revert h; decide
  · subst h4; revert h; decide
  · rfl

theorem skipWs_cons_no {c : Char} (t : List Char) (h : isWsChar c = false) :
    skipWs (c :: t) = c :: t := by
  simp [skipWs, h]

theorem skipWs_space (t : List Char) : skipWs (' ' :: t) = skipWs t := by
  have hw : isWsChar ' ' = true := by decide
  simp [skipWs, hw]

/-- Parsing an escaped body recovers it, stopping at the closing quote. -/
theorem parseStrBody_esc (s : List Char) (rest : List Char) :
    parseStrBody (escStr s ++ qm :: rest) = some (s, rest) := by
  induction s with
  | nil =>
    rw [parseStrBody.eq_def]
    simp [escStr]
  | cons c t ih =>
    have h1 : ¬ bs = qm := by decide
    by_cases hq : c = qm
    · subst hq
      simp only [escStr, escChar, if_pos rfl, List.cons_append, List.append_assoc]
      rw [parseStrBody.eq_def]
      simp [h1, ih]
    · by_cases hb : c = bs
      · subst hb
        simp only [escStr, escChar, if_neg h1, if_pos rfl, List.cons_append, List.append_assoc]
        rw [parseStrBody.eq_def]
        simp [h1, ih]
      · simp only [escStr, escChar, if_neg hq, if_neg hb, List.cons_append, List.nil_append]
        rw [parseStrBody.eq_def]
        simp [hq, hb, ih]

/-- Splitting an initial-segment equation at a known head character. -/
theorem splitPre {p q s : List Char} {a : Char} (h : p ++ q = a :: s) :
    p = [] ∨ ∃ p1, p = a :: p1 ∧ p1 ++ q = s := by
  cases p with
  | nil => exact Or.inl rfl
  | cons x p1 =>
    simp only [List.cons_append, List.cons.injEq] at h
    exact Or.inr ⟨p1, by rw [h.1], h.2⟩

/-- Splitting an initial-segment equation at an appended block: the segment
ends inside the block, or contains all of it. -/
theorem splitPreApp : ∀ {a p q b : List Char}, p ++ q = a ++ b →
    (∃ r, p ++ r = a) ∨ (∃ p1, p = a ++ p1 ∧ p1 ++ q = b) := by
  intro a
  induction a with
  | nil => exact fun h => Or.inr ⟨_, (List.nil_append _).symm, h⟩
  | cons x a1 ih =>
    intro p q b h
    cases p with
    | nil => exact Or.inl ⟨x :: a1, rfl⟩
    | cons y p1 =>
      simp only [List.cons_append, List.cons.injEq] at h
      obtain ⟨hy, h2⟩ := h
      rcases ih h2 with ⟨r, hr⟩ | ⟨p2, hp2, hq2⟩
      · exact Or.inl ⟨r, by rw [hy, List.cons_append, hr]⟩
      · exact Or.inr ⟨p2, by rw [hy, hp2, List.cons_append], hq2⟩

/-- A string body cut anywhere before its closing quote fails to parse: the
input runs out (possibly inside an escape) before reaching any unescaped
quote. -/
theorem parseStrBody_cut (s : List Char) : ∀ p, isPre p (escStr s) → parseStrBody p = none := by
  induction s with
  | nil =>
    intro p hp
    obtain ⟨q, hq⟩ := hp
    cases p with
    | nil => rfl
    | cons a b => simp [escStr] at hq
  | cons c t ih =>
    intro p hp
    have h1 : ¬ bs = qm := by decide
    obtain ⟨q, hqe⟩ := hp
    by_cases hq : c = qm
    · subst hq
      simp only [escStr, escChar, if_pos rfl, List.cons_append, List.nil_append] at hqe
      rcases splitPre hqe with rfl | ⟨p1, rfl, h2⟩
      · rfl
      · rcases splitPre h2 with rfl | ⟨p2, rfl, h3⟩
        · rw [parseStrBody.eq_def]
          simp [h1]
        · have h4 : parseStrBody p2 = none := ih p2 ⟨q, h3⟩
          rw [parseStrBody.eq_def]
          simp [h1, h4]
    · by_cases hb : c = bs
      · subst hb
        simp only [escStr, escChar, if_neg h1, if_pos rfl, List.cons_append,
          List.nil_append] at hqe
        rcases splitPre hqe with rfl | ⟨p1, rfl, h2⟩
        · rfl
        · rcases splitPre h2 with rfl | ⟨p2, rfl, h3⟩
          · rw [parseStrBody.eq_def]
            simp [h1]
          · have h4 : parseStrBody p2 = none := ih p2 ⟨q, h3⟩
            rw [parseStrBody.eq_def]
            simp [h1, h4]
      · simp only [escStr, escChar, if_neg hq, if_neg hb, List.cons_append,
          List.nil_append] at hqe
        rcases splitPre hqe with rfl | ⟨p1, rfl, h2⟩
        · rfl
        · have h4 : parseStrBody p1 = none := ih p1 ⟨q, h2⟩
          rw [parseStrBody.eq_def]
          simp [hq, hb, h4]

/-! ## Facts about decimal digits -/

/-- The digit character of `d < 10` is a digit and carries `d`. -/
theorem digitChar_spec (d : Nat) (h : d < 10) :
    isDigitChar (digitChar d) = true ∧ (digitChar d).toNat - 48 = d := by
  interval_cases d <;> exact ⟨by decide, by decide⟩

theorem digitsToNat_snoc (l : List Char) (c : Char) :
    digitsToNat (l ++ [c]) = 10 * digitsToNat l + (c.toNat - 48) := by
  simp [digitsToNat, List.foldl_append]

/-- Given enough fuel, `natDigitsFuel` produces a nonempty digit string whose
value is its argument. -/
theorem natDigitsFuel_ok : ∀ f n, n < f →
    natDigitsFuel f n ≠ [] ∧ (∀ c ∈ natDigitsFuel f n, isDigitChar c = true) ∧
      digitsToNat (natDigitsFuel f n) = n := by
  intro f
  induction f with
  | zero => omega
  | succ f ih =>
    intro n hn
    by_cases h10 : n < 10
    · refine ⟨by simp [natDigitsFuel, h10], ?_, ?_⟩
      · intro c hc
        simp only [natDigitsFuel, if_pos h10, List.mem_singleton] at hc
        subst hc
        exact (digitChar_spec n h10).1
      · simp only [natDigitsFuel, if_pos h10, digitsToNat, List.foldl_cons, List.foldl_nil]
        rw [(digitChar_spec n h10).2]
        omega
    · have hdiv : n / 10 < f := by omega
      obtain ⟨hne, hdig, hval⟩ := ih (n / 10) hdiv
      refine ⟨by simp [natDigitsFuel, h10], ?_, ?_⟩
      · intro c hc
        simp only [natDigitsFuel, if_neg h10, List.mem_append, List.mem_singleton] at hc
        rcases hc with hc | hc
        · exact hdig c hc
        · subst hc
          exact (digitChar_spec (n % 10) (by omega)).1
      · simp only [natDigitsFuel, if_neg h10]
        rw [digitsToNat_snoc, hval, (digitChar_spec (n % 10) (by omega)).2]
        omega

theorem natDigits_ne_nil (n : Nat) : natDigits n ≠ [] :=
  (natDigitsFuel_ok (n + 1) n (by omega)).1

theorem natDigits_all (n : Nat) : ∀ c ∈ natDigits n, isDigitChar c = true :=
  (natDigitsFuel_ok (n + 1) n (by omega)).2.1

theorem digitsToNat_natDigits (n : Nat) : digitsToNat (natDigits n) = n :=
  (natDigitsFuel_ok (n + 1) n (by omega)).2.2

/-- `takeDigits` consumes exactly a digit run when what follows cannot extend
it. -/
theorem takeDigits_run (ds : List Char) (hds : ∀ c ∈ ds, isDigitChar c = true) :
    ∀ rest, headNonDigit rest → takeDigits (ds ++ rest) = (ds, rest) := by
  induction ds with
  | nil =>
    intro rest hrest
    cases rest with
    | nil => rfl
    | cons c t =>
      simp only [headNonDigit] at hrest
      simp [takeDigits, hrest]
  | cons c t ih =>
    intro rest hrest
    have hc : isDigitChar c = true := hds c (List.mem_cons_self c t)
    have ht := ih (fun x hx => hds x (List.mem_cons_of_mem c hx)) rest hrest
    simp [takeDigits, hc, ht]

/-! ## Facts about the serializer's leading characters -/

theorem serInt_ne_nil (n : Int) : serInt n ≠ [] := by
  by_cases hn : n < 0
  · simp [serInt, hn]
  · simp only [serInt, if_neg hn]
    exact natDigits_ne_nil n.toNat

/-- Every serialized value begins with a character that is not whitespace,
not a digit-run continuation hazard for the surrounding context, and closes
neither an array nor an object. -/
theorem serJ_head (v : J) :
    ∃ c t, serJ v = c :: t ∧ isWsChar c = false ∧ c ≠ ']' ∧ c ≠ rcur ∧ c ≠ ',' := by
  cases v with
  | null => exact ⟨'n', _, rfl, by decide, by decide, by decide, by decide⟩
  | bool b =>
    cases b with
    | true => exact ⟨'t', _, rfl, by decide, by decide, by decide, by decide⟩
    | false => exact ⟨'f', _, rfl, by decide, by decide, by decide, by decide⟩
  | str s => exact ⟨qm, _, rfl, by decide, by decide, by decide, by decide⟩
  | arr xs => exact ⟨'[', _, rfl, by decide, by decide, by decide, by decide⟩
  | obj fs => exact ⟨lcur, _, rfl, by decide, by decide, by decide, by decide⟩
  | num n =>
    by_cases hn : n < 0
    · exact ⟨'-', natDigits n.natAbs, by simp [serJ, serInt, hn], by decide, by decide,
        by decide, by decide⟩
    · cases h : natDigits n.toNat with
      | nil => exact absurd h (natDigits_ne_nil n.toNat)
      | cons c t =>
        have hc : isDigitChar c = true := natDigits_all n.toNat c (h ▸ List.mem_cons_self c t)
        exact ⟨c, t, by simp [serJ, serInt, hn, h], isWsChar_of_digit hc,
          ne_of_digit hc (by decide), ne_of_digit hc (by decide), ne_of_digit hc (by decide)⟩

theorem serJ_ne_nil (v : J) : serJ v ≠ [] := by
  obtain ⟨c, t, h, -⟩ := serJ_head v
  simp [h]

theorem skipWs_serJ (v : J) (x : List Char) : skipWs (serJ v ++ x) = serJ v ++ x := by
  obtain ⟨c, t, h, hws, -⟩ := serJ_head v
  rw [h, List.cons_append]
  exact skipWs_cons_no _ hws

theorem headNonDigit_cons {c : Char} (l : List Char) (h : isDigitChar c = false) :
    headNonDigit (c :: l) := by
  simp [headNonDigit, h]

/-- The continuation after an array element starts with `,` or `]`. -/
theorem serArrTail_shape (t : JList) :
    ∃ u, serArrTail t = ',' :: ' ' :: u ∨ serArrTail t = ']' :: u := by
  cases t with
  | nil => exact ⟨[], Or.inr rfl⟩
  | cons v t2 => exact ⟨serJ v ++ serArrTail t2, Or.inl rfl⟩

/-- The continuation after an object member starts with `,` or the closing
brace. -/
theorem serObjTail_shape (t : JObj) :
    ∃ u, serObjTail t = ',' :: ' ' :: u ∨ serObjTail t = rcur :: u := by
  cases t with
  | nil => exact ⟨[], Or.inr rfl⟩
  | cons k v t2 =>
    exact ⟨(qm :: (escStr k ++ [qm])) ++ (':' :: ' ' :: (serJ v ++ serObjTail t2)), Or.inl rfl⟩

theorem headNonDigit_serArrTail (t : JList) (x : List Char) :
    headNonDigit (serArrTail t ++ x) := by
  obtain ⟨u, h | h⟩ := serArrTail_shape t <;>
    simp only [h, List.cons_append] <;> exact headNonDigit_cons _ (by decide)

theorem headNonDigit_serObjTail (t : JObj) (x : List Char) :
    headNonDigit (serObjTail t ++ x) := by
  obtain ⟨u, h | h⟩ := serObjTail_shape t <;>
    simp only [h, List.cons_append] <;> exact headNonDigit_cons _ (by decide)

/-! ## The fuel measure is bounded by the serialized length -/

mutual
theorem sizeJ_le : ∀ v : J, sizeJ v ≤ (serJ v).length
  | J.null => by simp [sizeJ, serJ]
  | J.bool b => by cases b <;> simp [sizeJ, serJ]
  | J.num n => by
    simp only [sizeJ, serJ]
    have := serInt_ne_nil n
    cases h : serInt n with
    | nil => exact absurd h this
    | cons c t => simp
  | J.str s => by simp [sizeJ, serJ]
  | J.arr xs => by
    cases xs with
    | nil => simp [sizeJ, sizeL, serJ, serArr]
    | cons v t =>
      have h1 := sizeJ_le v
      have h2 := sizeL_le t
      simp only [sizeJ, sizeL, serJ, serArr, List.length_cons, List.length_append]
      omega
  | J.obj fs => by
    cases fs with
    | nil => simp [sizeJ, sizeO, serJ, serObj]
    | cons k v t =>
      have h1 := sizeJ_le v
      have h2 := sizeO_le t
      simp only [sizeJ, sizeO, serJ, serObj, List.length_cons, List.length_append]
      omega

theorem sizeL_le : ∀ xs : JList, sizeL xs + 1 ≤ (serArrTail xs).length
  | JList.nil => by simp [sizeL, serArrTail]
  | JList.cons v t => by
    have h1 := sizeJ_le v
    have h2 := sizeL_le t
    simp only [sizeL, serArrTail, List.length_cons, List.length_append]
    omega

theorem sizeO_le : ∀ fs : JObj, sizeO fs + 1 ≤ (serObjTail fs).length
  | JObj.nil => by simp [sizeO, serObjTail]
  | JObj.cons k v t => by
    have h1 := sizeJ_le v
    have h2 := sizeO_le t
    simp only [sizeO, serObjTail, List.length_cons, List.length_append]
    omega
end

/-! ## One-step unfoldings of the parser at successor fuel -/

theorem parseVal_zero (s : List Char) : parseVal 0 s = none := rfl

theorem parseItems_zero (s : List Char) : parseItems 0 s = none := rfl

theorem parseMems_zero (s : List Char) : parseMems 0 s = none := rfl

theorem parseVal_none (f : Nat) (s : List Char) (hw : skipWs s = []) :
    parseVal (f + 1) s = none := by
  rw [parseVal, hw]

theorem parseVal_step (f : Nat) (s : List Char) (c : Char) (t : List Char)
    (hw : skipWs s = c :: t) :
    parseVal (f + 1) s =
      (if c = 'n' then (expectChars ['u', 'l', 'l'] t).map (fun r => (J.null, r))
       else if c = 't' then (expectChars ['r', 'u', 'e'] t).map (fun r => (J.bool true, r))
       else if c = 'f' then (expectChars ['a', 'l', 's', 'e'] t).map (fun r => (J.bool false, r))
       else if c = qm then (parseStrBody t).map (fun p => (J.str p.1, p.2))
       else if c = '[' then
         (match skipWs t with
          | [] => none
          | d :: u =>
            if d = ']' then some (J.arr JList.nil, u)
            else (parseItems f (d :: u)).map (fun p => (J.arr p.1, p.2)))
       else if c = lcur then
         (match skipWs t with
          | [] => none
          | d :: u =>
            if d = rcur then some (J.obj JObj.nil, u)
            else (parseMems f (d :: u)).map (fun p => (J.obj p.1, p.2)))
       else if c = '-' then
         (match takeDigits t with
          | ([], _) => none
          | (ds, r) => some (J.num (-(Int.ofNat (digitsToNat ds))), r))
       else if isDigitChar c then
         (match takeDigits t with
          | (ds, r) => some (J.num (Int.ofNat (digitsToNat (c :: ds))), r))
       else none) := by
  rw [parseVal, hw]

theorem parseItems_step (f : Nat) (s : List Char) :
    parseItems (f + 1) s =
      (match parseVal f s with
       | none => none
       | some (v, r) =>
         match skipWs r with
         | [] => none
         | c :: r2 =>
           if c = ',' then
             (match parseItems f r2 with
              | none => none
              | some (xs, r3) => some (JList.cons v xs, r3))
           else if c = ']' then some (JList.cons v JList.nil, r2)
           else none) := by
  rw [parseItems]

theorem parseMems_nil (f : Nat) : parseMems (f + 1) [] = none := by
  rw [parseMems]

theorem parseMems_step (f : Nat) (c : Char) (t : List Char) :
    parseMems (f + 1) (c :: t) =
      (if c = qm then
        match parseStrBody t with
        | none => none
        | some (k, r1) =>
          match skipWs r1 with
          | [] => none
          | d :: r2 =>
            if d = ':' then
              (match parseVal f r2 with
               | none => none
               | some (v, r3) =>
                 match skipWs r3 with
                 | [] => none
                 | e :: r4 =>
                   if e = ',' then
                     (match parseMems f (skipWs r4) with
                      | none => none
                      | some (fs, r5) => some (JObj.cons k v fs, r5))
                   else if e = rcur then some (JObj.cons k v JObj.nil, r4)
                   else none)
            else none
      else none) := by
  rw [parseMems]

/-! ## Fuel monotonicity: extra fuel never changes a successful parse -/

theorem parseMono : ∀ f : Nat,
    (∀ s x, parseVal f s = some x → parseVal (f + 1) s = some x) ∧
    (∀ s y, parseItems f s = some y → parseItems (f + 1) s = some y) ∧
    (∀ s z, parseMems f s = some z → parseMems (f + 1) s = some z) := by
  intro f
  induction f with
  | zero =>
    refine ⟨fun s x h => ?_, fun s y h => ?_, fun s z h => ?_⟩
    · rw [parseVal_zero] at h; exact absurd h (by simp)
    · rw [parseItems_zero] at h; exact absurd h (by simp)
    · rw [parseMems_zero] at h; exact absurd h (by simp)
  | succ g ih =>
    obtain ⟨ihV, ihI, ihM⟩ := ih
    refine ⟨fun s x h => ?_, fun s y h => ?_, fun s z h => ?_⟩
    · -- parseVal
      cases hw : skipWs s with
      | nil => rw [parseVal_none g s hw] at h; exact absurd h (by simp)
      | cons c t =>
        rw [parseVal_step g s c t hw] at h
        rw [parseVal_step (g + 1) s c t hw]
        by_cases h1 : c = 'n'
        · simpa only [if_pos h1] using h
        by_cases h2 : c = 't'
        · simpa only [if_neg h1, if_pos h2] using h
        by_cases h3 : c = 'f'
        · simpa only [if_neg h1, if_neg h2, if_pos h3] using h
        by_cases h4 : c = qm
        · simpa only [if_neg h1, if_neg h2, if_neg h3, if_pos h4] using h
        by_cases h5 : c = '['
        · simp only [if_neg h1, if_neg h2, if_neg h3, if_neg h4, if_pos h5] at h ⊢
          cases hw2 : skipWs t with
          | nil => rw [hw2] at h; exact absurd h (by simp)
          | cons d u =>
            rw [hw2] at h
            by_cases hd : d = ']'
            · simpa only [if_pos hd] using h
            · simp only [if_neg hd] at h ⊢
              cases hp : parseItems g (d :: u) with
              | none => rw [hp] at h; exact absurd h (by simp)
              | some p => rw [ihI _ _ hp]; rw [hp] at h; exact h
        by_cases h6 : c = lcur
        · simp only [if_neg h1, if_neg h2, if_neg h3, if_neg h4, if_neg h5, if_pos h6] at h ⊢
          cases hw2 : skipWs t with
          | nil => rw [hw2] at h; exact absurd h (by simp)
          | cons d u =>
            rw [hw2] at h
            by_cases hd : d = rcur
            · simpa only [if_pos hd] using h
            · simp only [if_neg hd] at h ⊢
              cases hp : parseMems g (d :: u) with
              | none => rw [hp] at h; exact absurd h (by simp)
              | some p => rw [ihM _ _ hp]; rw [hp] at h; exact h
        · simpa only [if_neg h1, if_neg h2, if_neg h3, if_neg h4, if_neg h5, if_neg h6] using h
    · -- parseItems
      rw [parseItems_step] at h
      rw [parseItems_step]
      cases hv : parseVal g s with
      | none => simp only [hv] at h; exact absurd h (by simp)
      | some p =>
        obtain ⟨v, r⟩ := p
        simp only [ihV _ _ hv]
        simp only [hv] at h
        cases hw : skipWs r with
        | nil => simp only [hw] at h; exact absurd h (by simp)
        | cons c r2 =>
          simp only [hw] at h ⊢
          by_cases hc : c = ','
          · simp only [if_pos hc] at h ⊢
            cases hp : parseItems g r2 with
            | none => simp only [hp] at h; exact absurd h (by simp)
            | some q => simp only [ihI _ _ hp]; simp only [hp] at h; exact h
          · simpa only [if_neg hc] using h
    · -- parseMems
      cases s with
      | nil => rw [parseMems_nil] at h; exact absurd h (by simp)
      | cons c t =>
        rw [parseMems_step] at h
        rw [parseMems_step]
        by_cases hc : c = qm
        · simp only [if_pos hc] at h ⊢
          cases hk : parseStrBody t with
          | none => simp only [hk] at h; exact absurd h (by simp)
          | some p =>
            obtain ⟨k, r1⟩ := p
            simp only [hk] at h ⊢
            cases hw : skipWs r1 with
            | nil => simp only [hw] at h; exact absurd h (by simp)
            | cons d r2 =>
              simp only [hw] at h ⊢
              by_cases hd : d = ':'
              · simp only [if_pos hd] at h ⊢
                cases hv : parseVal g r2 with
                | none => simp only [hv] at h; exact absurd h (by simp)
                | some p2 =>
                  obtain ⟨v, r3⟩ := p2
                  simp only [ihV _ _ hv]
                  simp only [hv] at h
                  cases hw2 : skipWs r3 with
                  | nil => simp only [hw2] at h; exact absurd h (by simp)
                  | cons e r4 =>
                    simp only [hw2] at h ⊢
                    by_cases he : e = ','
                    · simp only [if_pos he] at h ⊢
                      cases hp : parseMems g (skipWs r4) with
                      | none => simp only [hp] at h; exact absurd h (by simp)
                      | some q => simp only [ihM _ _ hp]; simp only [hp] at h; exact h
                    · simpa only [if_neg he] using h
              · simpa only [if_neg hd] using h
        · simpa only [if_neg hc] using h

theorem parseVal_le {f g : Nat} (hfg : f ≤ g) {s : List Char} {x : J × List Char}
    (h : parseVal f s = some x) : parseVal g s = some x := by
  induction hfg with
  | refl => exact h
  | step _ ih => exact (parseMono _).1 _ _ ih

theorem parseItems_le {f g : Nat} (hfg : f ≤ g) {s : List Char} {y : JList × List Char}
    (h : parseItems f s = some y) : parseItems g s = some y := by
  induction hfg with
  | refl => exact h
  | step _ ih => exact (parseMono _).2.1 _ _ ih

theorem parseMems_le {f g : Nat} (hfg : f ≤ g) {s : List Char} {z : JObj × List Char}
    (h : parseMems f s = some z) : parseMems g s = some z := by
  induction hfg with
  | refl => exact h
  | step _ ih => exact (parseMono _).2.2 _ _ ih

theorem sizeJ_pos (v : J) : 1 ≤ sizeJ v := by
  cases v <;> (simp only [sizeJ]; omega)

/-- The parser's own whitespace skipping absorbs a leading space. -/
theorem parseVal_space (f : Nat) (s : List Char) : parseVal f (' ' :: s) = parseVal f s := by
  cases f with
  | zero => rfl
  | succ g =>
    simp only [parseVal]
    rw [skipWs_space]

theorem parseItems_space (f : Nat) (s : List Char) :
    parseItems f (' ' :: s) = parseItems f s := by
  cases f with
  | zero => rfl
  | succ g =>
    rw [parseItems_step, parseItems_step, parseVal_space]


/-! ## Round trip: the parser inverts the serializer, for any remainder that
cannot extend a number -/

mutual
theorem rtVal : ∀ (v : J) (fuel : Nat) (rest : List Char),
    sizeJ v ≤ fuel → headNonDigit rest → parseVal fuel (serJ v ++ rest) = some (v, rest)
  | J.null, fuel, rest => by
    intro hf hd
    obtain ⟨f, rfl⟩ : ∃ f, fuel = f + 1 := ⟨fuel - 1, by have := sizeJ_pos J.null; omega⟩
    have hw : skipWs (serJ J.null ++ rest) = 'n' :: ('u' :: 'l' :: 'l' :: rest) :=
      skipWs_cons_no _ (by decide)
    rw [parseVal_step f _ _ _ hw]
    simp [expectChars]
  | J.bool true, fuel, rest => by
    intro hf hd
    obtain ⟨f, rfl⟩ : ∃ f, fuel = f + 1 := ⟨fuel - 1, by have := sizeJ_pos (J.bool true); omega⟩
    have hw : skipWs (serJ (J.bool true) ++ rest) = 't' :: ('r' :: 'u' :: 'e' :: rest) :=
      skipWs_cons_no _ (by decide)
    rw [parseVal_step f _ _ _ hw]
    simp [expectChars]
  | J.bool false, fuel, rest => by
    intro hf hd
    obtain ⟨f, rfl⟩ : ∃ f, fuel = f + 1 := ⟨fuel - 1, by have := sizeJ_pos (J.bool false); omega⟩
    have hw : skipWs (serJ (J.bool false) ++ rest) = 'f' :: ('a' :: 'l' :: 's' :: 'e' :: rest) :=
      skipWs_cons_no _ (by decide)
    rw [parseVal_step f _ _ _ hw]
    simp [expectChars]
  | J.str s, fuel, rest => by
    intro hf hd
    obtain ⟨f, rfl⟩ : ∃ f, fuel = f + 1 := ⟨fuel - 1, by have := sizeJ_pos (J.str s); omega⟩
    have hw : skipWs (serJ (J.str s) ++ rest) = qm :: ((escStr s ++ [qm]) ++ rest) :=
      skipWs_cons_no _ (by decide)
    rw [parseVal_step f _ _ _ hw]
    have h4 : (escStr s ++ [qm]) ++ rest = escStr s ++ qm :: rest := by
      simp [List.append_assoc]
    rw [if_neg (by decide : ¬ qm = 'n'), if_neg (by decide : ¬ qm = 't'),
      if_neg (by decide : ¬ qm = 'f'), if_pos (rfl : qm = qm), h4, parseStrBody_esc]
    rfl
  | J.num n, fuel, rest => by
    intro hf hd
    obtain ⟨f, rfl⟩ : ∃ f, fuel = f + 1 := ⟨fuel - 1, by have := sizeJ_pos (J.num n); omega⟩
    by_cases hn : n < 0
    · have hser : serJ (J.num n) = '-' :: natDigits n.natAbs := by simp [serJ, serInt, hn]
      have hw : skipWs (serJ (J.num n) ++ rest) = '-' :: (natDigits n.natAbs ++ rest) := by
        rw [hser, List.cons_append]
        exact skipWs_cons_no _ (by decide)
      rw [parseVal_step f _ _ _ hw]
      have htd : takeDigits (natDigits n.natAbs ++ rest) = (natDigits n.natAbs, rest) :=
        takeDigits_run _ (natDigits_all _) rest hd
      cases h0 : natDigits n.natAbs with
      | nil => exact absurd h0 (natDigits_ne_nil _)
      | cons c0 t0 =>
        rw [h0, List.cons_append] at htd
        have hval : digitsToNat (c0 :: t0) = n.natAbs := by
          rw [← h0]; exact digitsToNat_natDigits _
        have hneg : -(Int.ofNat n.natAbs) = n := by
          simp only [Int.ofNat_eq_coe]
          omega
        rw [if_neg (by decide : ¬ '-' = 'n'), if_neg (by decide : ¬ '-' = 't'),
          if_neg (by decide : ¬ '-' = 'f'), if_neg (by decide : ¬ '-' = qm),
          if_neg (by decide : ¬ '-' = '['), if_neg (by decide : ¬ '-' = lcur),
          if_pos (rfl : ('-' : Char) = '-')]
        rw [List.cons_append]
        simp only [htd, hval]
        rw [hneg]
    · cases h0 : natDigits n.toNat with
      | nil => exact absurd h0 (natDigits_ne_nil _)
      | cons c0 t0 =>
        have hc0 : isDigitChar c0 = true := natDigits_all n.toNat c0 (h0 ▸ List.mem_cons_self c0 t0)
        have hser : serJ (J.num n) = c0 :: t0 := by simp [serJ, serInt, hn, h0]
        have hw : skipWs (serJ (J.num n) ++ rest) = c0 :: (t0 ++ rest) := by
          rw [hser, List.cons_append]
          exact skipWs_cons_no _ (isWsChar_of_digit hc0)
        rw [parseVal_step f _ _ _ hw]
        have htd : takeDigits (t0 ++ rest) = (t0, rest) :=
          takeDigits_run _ (fun c hc => natDigits_all n.toNat c
            (h0 ▸ List.mem_cons_of_mem c0 hc)) rest hd
        have hval : digitsToNat (c0 :: t0) = n.toNat := by
          rw [← h0]; exact digitsToNat_natDigits _
        have hofn : Int.ofNat n.toNat = n := by
          simp only [Int.ofNat_eq_coe]
          omega
        rw [if_neg (ne_of_digit hc0 (by decide : isDigitChar 'n' = false)),
          if_neg (ne_of_digit hc0 (by decide : isDigitChar 't' = false)),
          if_neg (ne_of_digit hc0 (by decide : isDigitChar 'f' = false)),
          if_neg (ne_of_digit hc0 (by decide : isDigitChar qm = false)),
          if_neg (ne_of_digit hc0 (by decide : isDigitChar '[' = false)),
          if_neg (ne_of_digit hc0 (by decide : isDigitChar lcur = false)),
          if_neg (ne_of_digit hc0 (by decide : isDigitChar '-' = false)),
          if_pos hc0]
        simp only [htd, hval, hofn]
  | J.arr JList.nil, fuel, rest => by
    intro hf hd
    obtain ⟨f, rfl⟩ : ∃ f, fuel = f + 1 :=
      ⟨fuel - 1, by have := sizeJ_pos (J.arr JList.nil); omega⟩
    have hw : skipWs (serJ (J.arr JList.nil) ++ rest) = '[' :: (']' :: rest) :=
      skipWs_cons_no _ (by decide)
    rw [parseVal_step f _ _ _ hw]
    have hw2 : skipWs (']' :: rest) = ']' :: rest := skipWs_cons_no _ (by decide)
    rw [if_neg (by decide : ¬ '[' = 'n'), if_neg (by decide : ¬ '[' = 't'),
      if_neg (by decide : ¬ '[' = 'f'), if_neg (by decide : ¬ '[' = qm),
      if_pos (rfl : ('[' : Char) = '[')]
    simp [hw2]
  | J.arr (JList.cons v t), fuel, rest => by
    intro hf hd
    obtain ⟨f, rfl⟩ : ∃ f, fuel = f + 1 :=
      ⟨fuel - 1, by have := sizeJ_pos (J.arr (JList.cons v t)); omega⟩
    have hser : serJ (J.arr (JList.cons v t)) ++ rest
        = '[' :: (serJ v ++ (serArrTail t ++ rest)) := by
      simp [serJ, serArr, List.append_assoc]
    rw [hser]
    have hw : skipWs ('[' :: (serJ v ++ (serArrTail t ++ rest)))
        = '[' :: (serJ v ++ (serArrTail t ++ rest)) := skipWs_cons_no _ (by decide)
    rw [parseVal_step f _ _ _ hw]
    obtain ⟨c0, t0, h0, hws0, hbr0, -, -⟩ := serJ_head v
    have hw2 : skipWs (serJ v ++ (serArrTail t ++ rest))
        = c0 :: (t0 ++ (serArrTail t ++ rest)) := by
      rw [h0, List.cons_append]
      exact skipWs_cons_no _ hws0
    have hitems : parseItems f (c0 :: (t0 ++ (serArrTail t ++ rest)))
        = some (JList.cons v t, rest) := by
      have hit := rtItems v t f rest (by simp only [sizeJ, sizeL] at hf ⊢; omega)
      rwa [h0, List.cons_append] at hit
    rw [if_neg (by decide : ¬ '[' = 'n'), if_neg (by decide : ¬ '[' = 't'),
      if_neg (by decide : ¬ '[' = 'f'), if_neg (by decide : ¬ '[' = qm),
      if_pos (rfl : ('[' : Char) = '[')]
    simp only [hw2, if_neg hbr0, hitems]
    rfl
  | J.obj JObj.nil, fuel, rest => by
    intro hf hd
    obtain ⟨f, rfl⟩ : ∃ f, fuel = f + 1 :=
      ⟨fuel - 1, by have := sizeJ_pos (J.obj JObj.nil); omega⟩
    have hw : skipWs (serJ (J.obj JObj.nil) ++ rest) = lcur :: (rcur :: rest) :=
      skipWs_cons_no _ (by decide)
    rw [parseVal_step f _ _ _ hw]
    have hw2 : skipWs (rcur :: rest) = rcur :: rest := skipWs_cons_no _ (by decide)
    rw [if_neg (by decide : ¬ lcur = 'n'), if_neg (by decide : ¬ lcur = 't'),
      if_neg (by decide : ¬ lcur = 'f'), if_neg (by decide : ¬ lcur = qm),
      if_neg (by decide : ¬ lcur = '['), if_pos (rfl : lcur = lcur)]
    simp [hw2]
  | J.obj (JObj.cons k v t), fuel, rest => by
    intro hf hd
    obtain ⟨f, rfl⟩ : ∃ f, fuel = f + 1 :=
      ⟨fuel - 1, by have := sizeJ_pos (J.obj (JObj.cons k v t)); omega⟩
    have hser : serJ (J.obj (JObj.cons k v t)) ++ rest
        = lcur :: (qm :: (escStr k ++ qm :: ':' :: ' ' :: (serJ v ++ (serObjTail t ++ rest)))) := by
      simp [serJ, serObj, List.append_assoc]
    rw [hser]
    have hw : skipWs (lcur :: (qm :: (escStr k ++ qm :: ':' :: ' ' :: (serJ v ++ (serObjTail t ++ rest)))))
        = lcur :: (qm :: (escStr k ++ qm :: ':' :: ' ' :: (serJ v ++ (serObjTail t ++ rest)))) :=
      skipWs_cons_no _ (by decide)
    rw [parseVal_step f _ _ _ hw]
    have hw2 : skipWs (qm :: (escStr k ++ qm :: ':' :: ' ' :: (serJ v ++ (serObjTail t ++ rest))))
        = qm :: (escStr k ++ qm :: ':' :: ' ' :: (serJ v ++ (serObjTail t ++ rest))) :=
      skipWs_cons_no _ (by decide)
    have hmems : parseMems f (qm :: (escStr k ++ qm :: ':' :: ' ' :: (serJ v ++ (serObjTail t ++ rest))))
        = some (JObj.cons k v t, rest) :=
      rtMems k v t f rest (by simp only [sizeJ, sizeO] at hf ⊢; omega)
    rw [if_neg (by decide : ¬ lcur = 'n'), if_neg (by decide : ¬ lcur = 't'),
      if_neg (by decide : ¬ lcur = 'f'), if_neg (by decide : ¬ lcur = qm),
      if_neg (by decide : ¬ lcur = '['), if_pos (rfl : lcur = lcur)]
    simp only [hw2, if_neg (by decide : ¬ qm = rcur), hmems]
    rfl
termination_by v fuel rest => sizeOf v

theorem rtItems : ∀ (v : J) (t : JList) (fuel : Nat) (rest : List Char),
    sizeL (JList.cons v t) ≤ fuel →
    parseItems fuel (serJ v ++ (serArrTail t ++ rest)) = some (JList.cons v t, rest)
  | v, t, fuel, rest => by
    intro hf
    obtain ⟨f, rfl⟩ : ∃ f, fuel = f + 1 :=
      ⟨fuel - 1, by simp only [sizeL] at hf; omega⟩
    rw [parseItems_step]
    have hsz : sizeJ v ≤ f := by simp only [sizeL] at hf; omega
    have hv : parseVal f (serJ v ++ (serArrTail t ++ rest)) = some (v, serArrTail t ++ rest) :=
      rtVal v f _ hsz (headNonDigit_serArrTail t rest)
    simp only [hv]
    cases t with
    | nil =>
      have hw : skipWs (serArrTail JList.nil ++ rest) = ']' :: rest :=
        skipWs_cons_no _ (by decide)
      simp [hw, if_neg (by decide : ¬ ']' = ',')]
    | cons v2 t2 =>
      have hw : skipWs (serArrTail (JList.cons v2 t2) ++ rest)
          = ',' :: (' ' :: (serJ v2 ++ (serArrTail t2 ++ rest))) := by
        simp only [serArrTail, List.cons_append, List.append_assoc]
        exact skipWs_cons_no _ (by decide)
      have hrec : parseItems f (' ' :: (serJ v2 ++ (serArrTail t2 ++ rest)))
          = some (JList.cons v2 t2, rest) := by
        rw [parseItems_space]
        exact rtItems v2 t2 f rest (by simp only [sizeL] at hf ⊢; omega)
      simp [hw, hrec]
termination_by v t fuel rest => sizeOf (JList.cons v t)

theorem rtMems : ∀ (k : List Char) (v : J) (t : JObj) (fuel : Nat) (rest : List Char),
    sizeO (JObj.cons k v t) ≤ fuel →
    parseMems fuel (qm :: (escStr k ++ qm :: ':' :: ' ' :: (serJ v ++ (serObjTail t ++ rest))))
      = some (JObj.cons k v t, rest)
  | k, v, t, fuel, rest => by
    intro hf
    obtain ⟨f, rfl⟩ : ∃ f, fuel = f + 1 :=
      ⟨fuel - 1, by simp only [sizeO] at hf; omega⟩
    rw [parseMems_step]
    have hk : parseStrBody (escStr k ++ qm :: ':' :: ' ' :: (serJ v ++ (serObjTail t ++ rest)))
        = some (k, ':' :: ' ' :: (serJ v ++ (serObjTail t ++ rest))) := parseStrBody_esc _ _
    have hwc : skipWs (':' :: ' ' :: (serJ v ++ (serObjTail t ++ rest)))
        = ':' :: (' ' :: (serJ v ++ (serObjTail t ++ rest))) := skipWs_cons_no _ (by decide)
    have hsz : sizeJ v ≤ f := by simp only [sizeO] at hf; omega
    have hv : parseVal f (' ' :: (serJ v ++ (serObjTail t ++ rest)))
        = some (v, serObjTail t ++ rest) := by
      rw [parseVal_space]
      exact rtVal v f _ hsz (headNonDigit_serObjTail t rest)
    rw [if_pos (rfl : qm = qm)]
    simp only [hk, hwc, if_pos (rfl : (':' : Char) = ':'), hv]
    cases t with
    | nil =>
      have hw : skipWs (serObjTail JObj.nil ++ rest) = rcur :: rest :=
        skipWs_cons_no _ (by decide)
      simp [hw, if_neg (by decide : ¬ rcur = ',')]
    | cons k2 v2 t2 =>
      have hw : skipWs (serObjTail (JObj.cons k2 v2 t2) ++ rest)
          = ',' :: (' ' :: (qm :: (escStr k2 ++ qm :: ':' :: ' ' :: (serJ v2 ++ (serObjTail t2 ++ rest))))) := by
        simp only [serObjTail, List.cons_append, List.append_assoc, List.singleton_append]
        exact skipWs_cons_no _ (by decide)
      have hw2 : skipWs (' ' :: (qm :: (escStr k2 ++ qm :: ':' :: ' ' :: (serJ v2 ++ (serObjTail t2 ++ rest)))))
          = qm :: (escStr k2 ++ qm :: ':' :: ' ' :: (serJ v2 ++ (serObjTail t2 ++ rest))) := by
        rw [skipWs_space]
        exact skipWs_cons_no _ (by decide)
      have hrec : parseMems f (qm :: (escStr k2 ++ qm :: ':' :: ' ' :: (serJ v2 ++ (serObjTail t2 ++ rest))))
          = some (JObj.cons k2 v2 t2, rest) :=
        rtMems k2 v2 t2 f rest (by simp only [sizeO] at hf ⊢; omega)
      simp [hw, hw2, hrec]
termination_by k v t fuel rest => sizeOf (JObj.cons k v t)
end

/-! ## Determinism and whole-input corollaries -/

theorem headNonDigit_nil : headNonDigit [] := by simp [headNonDigit]

theorem parseVal_empty (f : Nat) : parseVal f [] = none := by
  cases f with
  | zero => rfl
  | succ g => exact parseVal_none g [] rfl

theorem parseItems_empty (f : Nat) : parseItems f [] = none := by
  cases f with
  | zero => rfl
  | succ g => rw [parseItems_step, parseVal_empty]

theorem parseMems_empty (f : Nat) : parseMems f [] = none := by
  cases f with
  | zero => rfl
  | succ g => exact parseMems_nil g

/-- A successful parse of a serialized value followed by a non-digit
remainder consumes exactly the serialization and yields exactly the value. -/
theorem parseVal_exact {f : Nat} {v : J} {rest : List Char} (hd : headNonDigit rest)
    {w : J} {r : List Char} (h : parseVal f (serJ v ++ rest) = some (w, r)) :
    w = v ∧ r = rest := by
  have h2 : parseVal (max f (sizeJ v)) (serJ v ++ rest) = some (w, r) :=
    parseVal_le (Nat.le_max_left _ _) h
  have h3 : parseVal (max f (sizeJ v)) (serJ v ++ rest) = some (v, rest) :=
    rtVal v _ rest (Nat.le_max_right _ _) hd
  rw [h2] at h3
  simp only [Option.some.injEq, Prod.mk.injEq] at h3
  exact ⟨h3.1, h3.2⟩

/-- `json.loads` inverts `json.dumps`. -/
theorem jloads_serJ (v : J) : jloads (serJ v) = some v := by
  have h : parseVal ((serJ v).length + 1) (serJ v ++ []) = some (v, []) :=
    rtVal v _ [] (le_trans (sizeJ_le v) (by omega)) headNonDigit_nil
  rw [List.append_nil] at h
  unfold jloads
  simp [h, skipWs]

/-! ## Helpers for the strict-prefix analysis -/

theorem strictPre_of_append {p q s : List Char} (h : p ++ q = s) (hq : q ≠ []) :
    strictPre p s := by
  refine ⟨⟨q, h⟩, fun he => hq ?_⟩
  subst he
  have hl := congrArg List.length h
  simp only [List.length_append] at hl
  exact List.eq_nil_of_length_eq_zero (by omega)

theorem q_ne_of_strict {p q s : List Char} (h : p ++ q = s) (hne : p ≠ s) : q ≠ [] := by
  intro h0
  subst h0
  rw [List.append_nil] at h
  exact hne h

/-- An expected literal cut short never matches. -/
theorem expectChars_cut : ∀ (w p1 q1 : List Char), p1 ++ q1 = w → q1 ≠ [] →
    expectChars w p1 = none := by
  intro w
  induction w with
  | nil =>
    intro p1 q1 h hq
    exact absurd (List.append_eq_nil.mp h).2 hq
  | cons e w2 ih =>
    intro p1 q1 h hq
    rcases splitPre h with rfl | ⟨p2, rfl, h2⟩
    · rfl
    · simp only [expectChars, if_pos rfl]
      exact ih p2 q1 h2 hq

theorem headNonDigit_preArrTail {t : JList} {p q : List Char} (h : p ++ q = serArrTail t) :
    headNonDigit p := by
  cases p with
  | nil => exact headNonDigit_nil
  | cons c p1 =>
    obtain ⟨u, h1 | h1⟩ := serArrTail_shape t <;>
      (rw [h1] at h
       simp only [List.cons_append, List.cons.injEq] at h
       rw [h.1]
       exact headNonDigit_cons _ (by decide))

theorem headNonDigit_preObjTail {t : JObj} {p q : List Char} (h : p ++ q = serObjTail t) :
    headNonDigit p := by
  cases p with
  | nil => exact headNonDigit_nil
  | cons c p1 =>
    obtain ⟨u, h1 | h1⟩ := serObjTail_shape t <;>
      (rw [h1] at h
       simp only [List.cons_append, List.cons.injEq] at h
       rw [h.1]
       exact headNonDigit_cons _ (by decide))

/-! ## Strict prefixes of a serialized value never parse

This is what makes the length-prefix-free framing of the bridge work for a
single command with read gaps: every proper prefix of a serialized object
fails `json.loads`, so the receive loop keeps buffering, and only the
complete serialization parses.  (Proper prefixes of a serialized *number*
can parse — `12` is a prefix of `123` — which is why the top-level claim is
about commands, which are objects; the second conjunct of `cutVal` tracks
that a prefix of any serialized value can only parse with nothing left.) -/

mutual
theorem cutVal : ∀ (v : J) (fuel : Nat) (p : List Char), strictPre p (serJ v) →
    (isNumJ v = false → parseVal fuel p = none) ∧
    (parseVal fuel p = none ∨ ∃ w, parseVal fuel p = some (w, []))
  | J.null, fuel, p => by
    intro hp
    obtain ⟨⟨q, hq⟩, hne⟩ := hp
    have hqne := q_ne_of_strict hq hne
    suffices hnone : parseVal fuel p = none from ⟨fun _ => hnone, Or.inl hnone⟩
    cases fuel with
    | zero => exact parseVal_zero p
    | succ f =>
      simp only [serJ] at hq
      rcases splitPre hq with rfl | ⟨p1, rfl, h2⟩
      · exact parseVal_empty _
      · have hw : skipWs ('n' :: p1) = 'n' :: p1 := skipWs_cons_no _ (by decide)
        rw [parseVal_step f _ _ _ hw, if_pos (rfl : ('n' : Char) = 'n'),
          expectChars_cut _ p1 q h2 hqne]
        rfl
  | J.bool true, fuel, p => by
    intro hp
    obtain ⟨⟨q, hq⟩, hne⟩ := hp
    have hqne := q_ne_of_strict hq hne
    suffices hnone : parseVal fuel p = none from ⟨fun _ => hnone, Or.inl hnone⟩
    cases fuel with
    | zero => exact parseVal_zero p
    | succ f =>
      simp only [serJ] at hq
      rcases splitPre hq with rfl | ⟨p1, rfl, h2⟩
      · exact parseVal_empty _
      · have hw : skipWs ('t' :: p1) = 't' :: p1 := skipWs_cons_no _ (by decide)
        rw [parseVal_step f _ _ _ hw, if_neg (by decide : ¬ 't' = 'n'),
          if_pos (rfl : ('t' : Char) = 't'), expectChars_cut _ p1 q h2 hqne]
        rfl
  | J.bool false, fuel, p => by
    intro hp
    obtain ⟨⟨q, hq⟩, hne⟩ := hp
    have hqne := q_ne_of_strict hq hne
    suffices hnone : parseVal fuel p = none from ⟨fun _ => hnone, Or.inl hnone⟩
    cases fuel with
    | zero => exact parseVal_zero p
    | succ f =>
      simp only [serJ] at hq
      rcases splitPre hq with rfl | ⟨p1, rfl, h2⟩
      · exact parseVal_empty _
      · have hw : skipWs ('f' :: p1) = 'f' :: p1 := skipWs_cons_no _ (by decide)
        rw [parseVal_step f _ _ _ hw, if_neg (by decide : ¬ 'f' = 'n'),
          if_neg (by decide : ¬ 'f' = 't'), if_pos (rfl : ('f' : Char) = 'f'),
          expectChars_cut _ p1 q h2 hqne]
        rfl
  | J.str s, fuel, p => by
    intro hp
    obtain ⟨⟨q, hq⟩, hne⟩ := hp
    have hqne := q_ne_of_strict hq hne
    suffices hnone : parseVal fuel p = none from ⟨fun _ => hnone, Or.inl hnone⟩
    cases fuel with
    | zero => exact parseVal_zero p
    | succ f =>
      simp only [serJ] at hq
      rcases splitPre hq with rfl | ⟨p1, rfl, h2⟩
      · exact parseVal_empty _
      · have hpsb : parseStrBody p1 = none := by
          rcases splitPreApp h2 with ⟨r, hr⟩ | ⟨p2, rfl, h3⟩
          · exact parseStrBody_cut s p1 ⟨r, hr⟩
          · rcases splitPre h3 with rfl | ⟨p3, rfl, h4⟩
            · rw [List.append_nil]
              exact parseStrBody_cut s _ ⟨[], List.append_nil _⟩
            · exact absurd (List.append_eq_nil.mp h4).2 hqne
        have hw : skipWs (qm :: p1) = qm :: p1 := skipWs_cons_no _ (by decide)
        rw [parseVal_step f _ _ _ hw, if_neg (by decide : ¬ qm = 'n'),
          if_neg (by decide : ¬ qm = 't'), if_neg (by decide : ¬ qm = 'f'),
          if_pos (rfl : qm = qm), hpsb]
        rfl
  | J.num n, fuel, p => by
    intro hp
    obtain ⟨⟨q, hq⟩, hne⟩ := hp
    have hqne := q_ne_of_strict hq hne
    refine ⟨fun hfalse => by simp [isNumJ] at hfalse, ?_⟩
    cases fuel with
    | zero => exact Or.inl (parseVal_zero p)
    | succ f =>
      by_cases hn : n < 0
      · rw [show serJ (J.num n) = '-' :: natDigits n.natAbs from by simp [serJ, serInt, hn]] at hq
        rcases splitPre hq with rfl | ⟨p1, rfl, h2⟩
        · exact Or.inl (parseVal_empty _)
        · have hw : skipWs ('-' :: p1) = '-' :: p1 := skipWs_cons_no _ (by decide)
          have hdigs : ∀ c ∈ p1, isDigitChar c = true := fun c hc =>
            natDigits_all n.natAbs c (h2 ▸ List.mem_append_left q hc)
          have htd : takeDigits p1 = (p1, []) := by
            have h5 := takeDigits_run p1 hdigs [] headNonDigit_nil
            rwa [List.append_nil] at h5
          cases p1 with
          | nil =>
            refine Or.inl ?_
            rw [parseVal_step f _ _ _ hw, if_neg (by decide : ¬ '-' = 'n'),
              if_neg (by decide : ¬ '-' = 't'), if_neg (by decide : ¬ '-' = 'f'),
              if_neg (by decide : ¬ '-' = qm), if_neg (by decide : ¬ '-' = '['),
              if_neg (by decide : ¬ '-' = lcur), if_pos (rfl : ('-' : Char) = '-')]
            simp [takeDigits]
          | cons c1 t1 =>
            refine Or.inr ⟨J.num (-(Int.ofNat (digitsToNat (c1 :: t1)))), ?_⟩
            rw [parseVal_step f _ _ _ hw, if_neg (by decide : ¬ '-' = 'n'),
              if_neg (by decide : ¬ '-' = 't'), if_neg (by decide : ¬ '-' = 'f'),
              if_neg (by decide : ¬ '-' = qm), if_neg (by decide : ¬ '-' = '['),
              if_neg (by decide : ¬ '-' = lcur), if_pos (rfl : ('-' : Char) = '-')]
            simp only [htd]
      · cases h0 : natDigits n.toNat with
        | nil => exact absurd h0 (natDigits_ne_nil _)
        | cons c0 t0 =>
          have hc0 : isDigitChar c0 = true :=
            natDigits_all n.toNat c0 (h0 ▸ List.mem_cons_self c0 t0)
          rw [show serJ (J.num n) = c0 :: t0 from by simp [serJ, serInt, hn, h0]] at hq
          rcases splitPre hq with rfl | ⟨p1, rfl, h2⟩
          · exact Or.inl (parseVal_empty _)
          · have hw : skipWs (c0 :: p1) = c0 :: p1 :=
              skipWs_cons_no _ (isWsChar_of_digit hc0)
            have hdigs : ∀ c ∈ p1, isDigitChar c = true := fun c hc =>
              natDigits_all n.toNat c
                (h0 ▸ List.mem_cons_of_mem c0 (h2 ▸ List.mem_append_left q hc))
            have htd : takeDigits p1 = (p1, []) := by
              have h5 := takeDigits_run p1 hdigs [] headNonDigit_nil
              rwa [List.append_nil] at h5
            refine Or.inr ⟨J.num (Int.ofNat (digitsToNat (c0 :: p1))), ?_⟩
            rw [parseVal_step f _ _ _ hw,
              if_neg (ne_of_digit hc0 (by decide : isDigitChar 'n' = false)),
              if_neg (ne_of_digit hc0 (by decide : isDigitChar 't' = false)),
              if_neg (ne_of_digit hc0 (by decide : isDigitChar 'f' = false)),
              if_neg (ne_of_digit hc0 (by decide : isDigitChar qm = false)),
              if_neg (ne_of_digit hc0 (by decide : isDigitChar '[' = false)),
              if_neg (ne_of_digit hc0 (by decide : isDigitChar lcur = false)),
              if_neg (ne_of_digit hc0 (by decide : isDigitChar '-' = false)),
              if_pos hc0]
            simp only [htd]
  | J.arr xs, fuel, p => by
    intro hp
    obtain ⟨⟨q, hq⟩, hne⟩ := hp
    have hqne := q_ne_of_strict hq hne
    suffices hnone : parseVal fuel p = none from ⟨fun _ => hnone, Or.inl hnone⟩
    cases fuel with
    | zero => exact parseVal_zero p
    | succ f =>
      simp only [serJ] at hq
      rcases splitPre hq with rfl | ⟨p1, rfl, h2⟩
      · exact parseVal_empty _
      · have hw : skipWs ('[' :: p1) = '[' :: p1 := skipWs_cons_no _ (by decide)
        rw [parseVal_step f _ _ _ hw, if_neg (by decide : ¬ '[' = 'n'),
          if_neg (by decide : ¬ '[' = 't'), if_neg (by decide : ¬ '[' = 'f'),
          if_neg (by decide : ¬ '[' = qm), if_pos (rfl : ('[' : Char) = '[')]
        cases xs with
        | nil =>
          simp only [serArr] at h2
          rcases splitPre h2 with rfl | ⟨p2, rfl, h3⟩
          · simp [skipWs, isWsChar]
          · exact absurd (List.append_eq_nil.mp h3).2 hqne
        | cons v t =>
          simp only [serArr] at h2
          obtain ⟨c0, t0, h0, hws0, hbr0, -, -⟩ := serJ_head v
          rw [h0, List.cons_append] at h2
          rcases splitPre h2 with rfl | ⟨p2, rfl, h3⟩
          · simp [skipWs, isWsChar]
          · have hw2 : skipWs (c0 :: p2) = c0 :: p2 := skipWs_cons_no _ hws0
            have hcut : parseItems f (c0 :: p2) = none := by
              apply cutItems v t f (c0 :: p2)
              refine strictPre_of_append ?_ hqne
              rw [h0, List.cons_append, List.cons_append, h3]
            simp [hw2, if_neg hbr0, hcut]
  | J.obj fs, fuel, p => by
    intro hp
    obtain ⟨⟨q, hq⟩, hne⟩ := hp
    have hqne := q_ne_of_strict hq hne
    suffices hnone : parseVal fuel p = none from ⟨fun _ => hnone, Or.inl hnone⟩
    cases fuel with
    | zero => exact parseVal_zero p
    | succ f =>
      simp only [serJ] at hq
      rcases splitPre hq with rfl | ⟨p1, rfl, h2⟩
      · exact parseVal_empty _
      · have hw : skipWs (lcur :: p1) = lcur :: p1 := skipWs_cons_no _ (by decide)
        rw [parseVal_step f _ _ _ hw, if_neg (by decide : ¬ lcur = 'n'),
          if_neg (by decide : ¬ lcur = 't'), if_neg (by decide : ¬ lcur = 'f'),
          if_neg (by decide : ¬ lcur = qm), if_neg (by decide : ¬ lcur = '['),
          if_pos (rfl : lcur = lcur)]
        cases fs with
        | nil =>
          simp only [serObj] at h2
          rcases splitPre h2 with rfl | ⟨p2, rfl, h3⟩
          · simp [skipWs, isWsChar]
          · exact absurd (List.append_eq_nil.mp h3).2 hqne
        | cons k v t =>
          have hcanon : serObj (JObj.cons k v t)
              = qm :: (escStr k ++ qm :: ':' :: ' ' :: (serJ v ++ serObjTail t)) := by
            simp [serObj, List.append_assoc]
          rw [hcanon] at h2
          rcases splitPre h2 with rfl | ⟨p2, rfl, h3⟩
          · simp [skipWs, isWsChar]
          · have hw2 : skipWs (qm :: p2) = qm :: p2 := skipWs_cons_no _ (by decide)
            have hcut : parseMems f (qm :: p2) = none := by
              apply cutMems k v t f (qm :: p2)
              refine strictPre_of_append ?_ hqne
              rw [List.cons_append, h3]
            simp [hw2, if_neg (by decide : ¬ qm = rcur), hcut]
termination_by v fuel p => sizeOf v

theorem cutItems : ∀ (v : J) (t : JList) (fuel : Nat) (p : List Char),
    strictPre p (serJ v ++ serArrTail t) → parseItems fuel p = none
  | v, t, fuel, p => by
    intro hp
    obtain ⟨⟨q, hq⟩, hne⟩ := hp
    have hqne := q_ne_of_strict hq hne
    cases fuel with
    | zero => exact parseItems_zero p
    | succ f =>
      rw [parseItems_step]
      rcases splitPreApp hq with ⟨r, hr⟩ | ⟨p2, rfl, h3⟩
      · by_cases hr0 : r = []
        · subst hr0
          rw [List.append_nil] at hr
          subst hr
          cases hv : parseVal f (serJ v) with
          | none => rfl
          | some w =>
            obtain ⟨w1, r1⟩ := w
            obtain ⟨rfl, rfl⟩ := parseVal_exact headNonDigit_nil
              (show parseVal f (serJ v ++ []) = some (w1, r1) by rwa [List.append_nil])
            simp [hv, skipWs, isWsChar]
        · have hcv := cutVal v f p (strictPre_of_append hr hr0)
          rcases hcv.2 with hnone | ⟨w, hsome⟩
          · simp [hnone]
          · simp [hsome, skipWs, isWsChar]
      · have hnd : headNonDigit p2 := headNonDigit_preArrTail h3
        cases hv : parseVal f (serJ v ++ p2) with
        | none => rfl
        | some w =>
          obtain ⟨w1, r1⟩ := w
          obtain ⟨rfl, rfl⟩ := parseVal_exact hnd hv
          simp only [hv]
          cases t with
          | nil =>
            simp only [serArrTail] at h3
            rcases splitPre h3 with rfl | ⟨p3, rfl, h4⟩
            · simp [skipWs, isWsChar]
            · exact absurd (List.append_eq_nil.mp h4).2 hqne
          | cons v2 t2 =>
            simp only [serArrTail] at h3
            rcases splitPre h3 with rfl | ⟨p3, rfl, h4⟩
            · simp [skipWs, isWsChar]
            · have hw2 : skipWs (',' :: p3) = ',' :: p3 := skipWs_cons_no _ (by decide)
              rcases splitPre h4 with rfl | ⟨p4, rfl, h5⟩
              · simp [hw2, parseItems_empty]
              · have hrec : parseItems f (' ' :: p4) = none := by
                  rw [parseItems_space]
                  exact cutItems v2 t2 f p4 (strictPre_of_append h5 hqne)
                simp [hw2, hrec]
termination_by v t fuel p => sizeOf (JList.cons v t)

theorem cutMems : ∀ (k : List Char) (v : J) (t : JObj) (fuel : Nat) (p : List Char),
    strictPre p (qm :: (escStr k ++ qm :: ':' :: ' ' :: (serJ v ++ serObjTail t))) →
    parseMems fuel p = none
  | k, v, t, fuel, p => by
    intro hp
    obtain ⟨⟨q, hq⟩, hne⟩ := hp
    have hqne := q_ne_of_strict hq hne
    cases fuel with
    | zero => exact parseMems_zero p
    | succ f =>
      rcases splitPre hq with rfl | ⟨p1, rfl, h2⟩
      · exact parseMems_empty _
      · rw [parseMems_step, if_pos (rfl : qm = qm)]
        rcases splitPreApp h2 with ⟨r, hr⟩ | ⟨p2, rfl, h3⟩
        · rw [parseStrBody_cut k p1 ⟨r, hr⟩]
        · rcases splitPre h3 with rfl | ⟨p3, rfl, h4⟩
          · rw [List.append_nil, parseStrBody_cut k _ ⟨[], List.append_nil _⟩]
          · simp only [parseStrBody_esc]
            rcases splitPre h4 with rfl | ⟨p4, rfl, h5⟩
            · simp [skipWs, isWsChar]
            · have hw : skipWs (':' :: p4) = ':' :: p4 := skipWs_cons_no _ (by decide)
              rcases splitPre h5 with rfl | ⟨p5, rfl, h6⟩
              · simp [hw, parseVal_empty]
              · simp only [hw, if_pos (rfl : (':' : Char) = ':'), parseVal_space]
                rcases splitPreApp h6 with ⟨r2, hr2⟩ | ⟨p6, rfl, h7⟩
                · by_cases hr0 : r2 = []
                  · subst hr0
                    rw [List.append_nil] at hr2
                    subst hr2
                    cases hv : parseVal f (serJ v) with
                    | none => rfl
                    | some w =>
                      obtain ⟨w1, r1⟩ := w
                      obtain ⟨rfl, rfl⟩ := parseVal_exact headNonDigit_nil
                        (show parseVal f (serJ v ++ []) = some (w1, r1) by rwa [List.append_nil])
                      simp [hv, skipWs, isWsChar]
                  · have hcv := cutVal v f p5 (strictPre_of_append hr2 hr0)
                    rcases hcv.2 with hnone | ⟨w, hsome⟩
                    · simp [hnone]
                    · simp [hsome, skipWs, isWsChar]
                · have hnd : headNonDigit p6 := headNonDigit_preObjTail h7
                  cases hv : parseVal f (serJ v ++ p6) with
                  | none => rfl
                  | some w =>
                    obtain ⟨w1, r1⟩ := w
                    obtain ⟨rfl, rfl⟩ := parseVal_exact hnd hv
                    simp only [hv]
                    cases t with
                    | nil =>
                      simp only [serObjTail] at h7
                      rcases splitPre h7 with rfl | ⟨p7, rfl, h8⟩
                      · simp [skipWs, isWsChar]
                      · exact absurd (List.append_eq_nil.mp h8).2 hqne
                    | cons k2 v2 t2 =>
                      have hcanon : serObjTail (JObj.cons k2 v2 t2)
                          = ',' :: ' ' :: (qm :: (escStr k2 ++ qm :: ':' :: ' '
                              :: (serJ v2 ++ serObjTail t2))) := by
                        simp [serObjTail, List.append_assoc]
                      rw [hcanon] at h7
                      rcases splitPre h7 with rfl | ⟨p7, rfl, h8⟩
                      · simp [skipWs, isWsChar]
                      · have hw2 : skipWs (',' :: p7) = ',' :: p7 :=
                          skipWs_cons_no _ (by decide)
                        rcases splitPre h8 with rfl | ⟨p8, rfl, h9⟩
                        · simp [hw2, skipWs, isWsChar, parseMems_empty]
                        · have hrec : parseMems f (skipWs (' ' :: p8)) = none := by
                            rw [skipWs_space]
                            rcases splitPre h9 with rfl | ⟨p9, rfl, h10⟩
                            · simp [skipWs, parseMems_empty]
                            · rw [skipWs_cons_no _ (by decide : isWsChar qm = false)]
                              exact cutMems k2 v2 t2 f (qm :: p9)
                                (strictPre_of_append (by rw [List.cons_append, h10]) hqne)
                          simp [hw2, hrec]
termination_by k v t fuel p => sizeOf (JObj.cons k v t)
end

/-- A proper prefix of a serialized command object never passes `json.loads`. -/
theorem jloads_cut_obj (fs : JObj) {p : List Char} (hp : strictPre p (serJ (J.obj fs))) :
    jloads p = none := by
  have h := (cutVal (J.obj fs) (p.length + 1) p hp).1 (by simp [isNumJ])
  unfold jloads
  simp [h]

/-! ## The per-connection receive loop, one command at a time -/

theorem handle_client_nil (scene : Scene) (host : HostFx) (buf : List Char) :
    MayaMCPServer.handle_client scene host buf [] = [] := rfl

theorem handle_client_cons (scene : Scene) (host : HostFx) (buf d : List Char)
    (rest : List (List Char)) :
    MayaMCPServer.handle_client scene host buf (d :: rest)
      = (match jloads (buf ++ d) with
         | some c =>
           (c, serverReply scene host c) :: MayaMCPServer.handle_client scene host [] rest
         | none => MayaMCPServer.handle_client scene host (buf ++ d) rest) := by
  rw [MayaMCPServer.handle_client]

/-- Feeding one serialized command in chunks (each nonempty, with a read gap
between them): every intermediate buffer is a proper prefix and fails to
parse, the final chunk completes the object, and exactly one dispatch and
one reply happen, after which the loop continues with an empty buffer. -/
theorem handle_client_one (scene : Scene) (host : HostFx) (fs : JObj) :
    ∀ (chunks : List (List Char)) (buf : List Char) (restChunks : List (List Char)),
    buf ++ chunks.join = serJ (J.obj fs) → chunks ≠ [] → (∀ c ∈ chunks, c ≠ []) →
    MayaMCPServer.handle_client scene host buf (chunks ++ restChunks)
      = (J.obj fs, serverReply scene host (J.obj fs))
          :: MayaMCPServer.handle_client scene host [] restChunks := by
  intro chunks
  induction chunks with
  | nil => intro buf restChunks _ hch _; exact absurd rfl hch
  | cons d rest ih =>
    intro buf restChunks hjoin _ hne
    rw [List.cons_append, handle_client_cons]
    cases rest with
    | nil =>
      have hfull : buf ++ d = serJ (J.obj fs) := by
        simpa using hjoin
      rw [hfull, jloads_serJ]
      simp
    | cons d2 rest2 =>
      have hd2 : d2 ≠ [] := hne d2 (by simp)
      have hpre : strictPre (buf ++ d) (serJ (J.obj fs)) := by
        refine strictPre_of_append (q := (d2 :: rest2).join) ?_ ?_
        · rw [← hjoin]
          simp [List.append_assoc]
        · simp [hd2]
      rw [jloads_cut_obj fs hpre]
      exact ih (buf ++ d) restChunks (by rw [← hjoin]; simp [List.append_assoc])
        (by simp) (fun c hc => hne c (List.mem_cons_of_mem d hc))

/-- Feeding a sequence of commands, each as its own nonempty chunk group with
read gaps, produces exactly one reply per command, in request order. -/
theorem handle_client_stream (scene : Scene) (host : HostFx) :
    ∀ (chunkss : List (List (List Char))) (cmds : List JObj),
    List.Forall₂ (fun ch fs =>
      ch ≠ [] ∧ (∀ d ∈ ch, d ≠ []) ∧ ch.join = serJ (J.obj fs)) chunkss cmds →
    MayaMCPServer.handle_client scene host [] chunkss.join
      = cmds.map (fun fs => (J.obj fs, serverReply scene host (J.obj fs))) := by
  intro chunkss cmds hall
  induction hall with
  | nil => simp [handle_client_nil]
  | @cons ch fs chs cs hpair htail ih =>
    obtain ⟨hch, hne, hjoin⟩ := hpair
    rw [show (ch :: chs).join = ch ++ chs.join from rfl,
      handle_client_one scene host fs ch [] chs.join (by simpa using hjoin) hch hne, ih]
    simp

/-! ## Helper lemmas shared by the claim theorems -/

theorem jget_cons_of_ne {k key : List Char} (h : k ≠ key) (v : J) (t : JObj) :
    jget (JObj.cons k v t) key = jget t key := by
  cases hjt : jget t key <;> simp [jget, hjt, h]

theorem jlen_toJList : ∀ l : List J, jlen (toJList l) = l.length
  | [] => rfl
  | v :: t => by
    simp only [toJList, jlen, List.length_cons, jlen_toJList t]
    omega

theorem jall_toJList (p : J → Bool) :
    ∀ l : List J, (∀ x ∈ l, p x = true) → jall p (toJList l) = true
  | [], _ => rfl
  | v :: t, h => by
    simp only [toJList, jall]
    rw [h v (by simp), jall_toJList p t (fun x hx => h x (List.mem_cons_of_mem v hx))]
    rfl

theorem entryShaped_scene_entry (o : SceneObject) :
    entryShaped (scene_entry o) = true := rfl

theorem exec_internal_unregistered (scene : Scene) (host : HostFx) (fs : JObj)
    (h1 : cmd_name fs ≠ some kGetSceneInfo) (h2 : cmd_name fs ≠ some kCreateObject) :
    MayaMCPServer.execute_command_internal scene host fs = Except.ok none := by
  unfold MayaMCPServer.execute_command_internal
  cases hcn : cmd_name fs with
  | none => rfl
  | some n =>
    have hn1 : n ≠ kGetSceneInfo := fun he => h1 (by rw [hcn, he])
    have hn2 : n ≠ kCreateObject := fun he => h2 (by rw [hcn, he])
    simp [hn1, hn2]

theorem serverReply_unregistered (scene : Scene) (host : HostFx) (fs : JObj)
    (h1 : cmd_name fs ≠ some kGetSceneInfo) (h2 : cmd_name fs ≠ some kCreateObject) :
    (MayaMCPServer.execute_command scene host (J.obj fs)).2 = none
    ∧ serverReply scene host (J.obj fs) = "null".data := by
  have hint := exec_internal_unregistered scene host fs h1 h2
  have h2none : (MayaMCPServer.execute_command scene host (J.obj fs)).2 = none := by
    simp [MayaMCPServer.execute_command, hint]
  refine ⟨h2none, ?_⟩
  unfold serverReply
  rw [h2none]
  rfl

theorem exec_registered_status_shaped (scene : Scene) (host : HostFx) (fs : JObj)
    (h : cmd_name fs = some kGetSceneInfo ∨ cmd_name fs = some kCreateObject) :
    ∃ r, (MayaMCPServer.execute_command scene host (J.obj fs)).2 = some r
      ∧ ((∃ x, r = successResp x) ∨ ∃ m, r = errorResp m) := by
  rcases h with hcn | hcn
  · refine ⟨successResp (MayaMCPServer.get_scene_info scene), ?_, Or.inl ⟨_, rfl⟩⟩
    simp [MayaMCPServer.execute_command, MayaMCPServer.execute_command_internal, hcn]
  · cases hps : jget fs kParams with
    | none =>
      cases host with
      | ok u =>
        refine ⟨successResp (MayaMCPServer.create_object JObj.nil), ?_, Or.inl ⟨_, rfl⟩⟩
        simp [MayaMCPServer.execute_command, MayaMCPServer.execute_command_internal,
          hcn, hps, (show ¬ kCreateObject = kGetSceneInfo by decide)]
      | error m =>
        refine ⟨errorResp m, ?_, Or.inr ⟨m, rfl⟩⟩
        simp [MayaMCPServer.execute_command, MayaMCPServer.execute_command_internal,
          hcn, hps, (show ¬ kCreateObject = kGetSceneInfo by decide)]
    | some v =>
      cases v with
      | obj ps =>
        cases host with
        | ok u =>
          refine ⟨successResp (MayaMCPServer.create_object ps), ?_, Or.inl ⟨_, rfl⟩⟩
          simp [MayaMCPServer.execute_command, MayaMCPServer.execute_command_internal,
            hcn, hps, (show ¬ kCreateObject = kGetSceneInfo by decide)]
        | error m =>
          refine ⟨errorResp m, ?_, Or.inr ⟨m, rfl⟩⟩
          simp [MayaMCPServer.execute_command, MayaMCPServer.execute_command_internal,
            hcn, hps, (show ¬ kCreateObject = kGetSceneInfo by decide)]
      | null =>
        refine ⟨errorResp kAttrGet, ?_, Or.inr ⟨kAttrGet, rfl⟩⟩
        simp [MayaMCPServer.execute_command, MayaMCPServer.execute_command_internal,
          hcn, hps, (show ¬ kCreateObject = kGetSceneInfo by decide)]
      | bool b =>
        refine ⟨errorResp kAttrGet, ?_, Or.inr ⟨kAttrGet, rfl⟩⟩
        simp [MayaMCPServer.execute_command, MayaMCPServer.execute_command_internal,
          hcn, hps, (show ¬ kCreateObject = kGetSceneInfo by decide)]
      | num n =>
        refine ⟨errorResp kAttrGet, ?_, Or.inr ⟨kAttrGet, rfl⟩⟩
        simp [MayaMCPServer.execute_command, MayaMCPServer.execute_command_internal,
          hcn, hps, (show ¬ kCreateObject = kGetSceneInfo by decide)]
      | str s =>
        refine ⟨errorResp kAttrGet, ?_, Or.inr ⟨kAttrGet, rfl⟩⟩
        simp [MayaMCPServer.execute_command, MayaMCPServer.execute_command_internal,
          hcn, hps, (show ¬ kCreateObject = kGetSceneInfo by decide)]
      | arr xs =>
        refine ⟨errorResp kAttrGet, ?_, Or.inr ⟨kAttrGet, rfl⟩⟩
        simp [MayaMCPServer.execute_command, MayaMCPServer.execute_command_internal,
          hcn, hps, (show ¬ kCreateObject = kGetSceneInfo by decide)]

/-! ## The claims -/

/-- C1 — With a held singleton connection and a successful probe,
`get_maya_connection` does not hand back the validated connection object:
the source executes `return result.get("enabled", False)`, so the caller
receives a plain JSON value (here `true`) in place of the `MayaConnection`
the docstring and every call site expect. -/
theorem c1_probe_success_returns_probe_field_not_connection :
    get_maya_connection (some freshConn)
        (Except.ok (J.obj (JObj.cons kEnabled (J.bool true) JObj.nil))) true
      = (some freshConn, Except.ok (GetConnResult.jsonVal (J.bool true)))
    ∧ GetConnResult.isConn (GetConnResult.jsonVal (J.bool true)) = false := by
  decide

/-- C4 — Counterexample: the non-mutating command `get_scene_info` takes the
plain-call route inside the wrapper, yet its dispatch still executes on
Maya's main thread — `_handle_client` handed the whole wrapper to
`executeDeferred` — and that hand-off does not block the connection's
handler thread, contrary to the claim's
immediately-on-the-handling-context and blocks-until-it-returns clauses. -/
theorem c4_counterexample_nonmutating_runs_on_owner_thread :
    (MayaMCPServer.execute_command scene0 hostOk (J.obj getSceneFs)).1 = ExecPath.direct
    ∧ dispatchThread scene0 hostOk (J.obj getSceneFs) = MThread.owner
    ∧ dispatchThread scene0 hostOk (J.obj getSceneFs) ≠ MThread.handler
    ∧ blocksCaller wrapperPlacement = false := by
  decide

/-- C4 — Amended: `_handle_client` hands every parsed command's whole
dispatch (`execute_wrapper`, through the reply write) to
`maya.utils.executeDeferred`, so the wrapper runs on Maya's main thread for
every command name and the connection's handler thread never blocks on it;
inside that wrapper, the internal dispatch is routed through the synchronous
`executeInMainThreadWithResult` primitive exactly when the command's name is
in the fixed mutating set `create_object`, `modify_object`, `delete_object` —
and either way the dispatch executes on the owner thread. -/
theorem c4_dispatch_deferred_to_owner_thread (scene : Scene) (host : HostFx)
    (fs : JObj) :
    ((MayaMCPServer.execute_command scene host (J.obj fs)).1 = ExecPath.mainThread
      ↔ ∃ n, cmd_name fs = some n ∧ n ∈ mutatingCommands)
    ∧ wrapperPlacement = Placement.deferred
    ∧ blocksCaller wrapperPlacement = false
    ∧ runsOn wrapperPlacement MThread.handler = MThread.owner
    ∧ dispatchThread scene host (J.obj fs) = MThread.owner
    ∧ mutatingCommands = [kCreateObject, kModifyObject, kDeleteObject] := by
  have hpath : (MayaMCPServer.execute_command scene host (J.obj fs)).1
      = (match cmd_name fs with
         | some n => if n ∈ mutatingCommands then ExecPath.mainThread else ExecPath.direct
         | none => ExecPath.direct) := by
    simp [MayaMCPServer.execute_command]
  refine ⟨?_, rfl, rfl, rfl, ?_, rfl⟩
  · rw [hpath]
    cases hcn : cmd_name fs with
    | none => simp
    | some n =>
      by_cases hm : n ∈ mutatingCommands
      · simp [hm]
      · simp [hm]
  · unfold dispatchThread
    cases (MayaMCPServer.execute_command scene host (J.obj fs)).1 <;> rfl

/-- C5 — The adapter's `modify_object` sends the visibility flag under the
wire key `visible`, not the documented key `visibility`: with `name` and the
visibility flag set the params keys are exactly `name`, `visible`, and
`visibility` never occurs even with every optional argument set; unset
optional fields are omitted rather than sent as nulls. -/
theorem c5_visibility_flag_sent_under_key_visible :
    (modify_object_params kPCube1 none none none (some true)).map Prod.fst
      = [kName, kVisible]
    ∧ List.contains ((modify_object_params kPCube1 (some zeroTriple) (some zeroTriple)
        (some zeroTriple) (some true)).map Prod.fst) kVisibility = false
    ∧ (modify_object_params kPCube1 (some zeroTriple) (some zeroTriple) (some zeroTriple)
        (some true)).map Prod.fst = [kName, kLocation, kRotation, kScale, kVisible]
    ∧ (modify_object_params kPCube1 none none none none).map Prod.fst = [kName] := by
  decide

/-- C8 — `get_scene_info` returns exactly the fields `name`, `object_count`,
`objects`, `materials_count`; `object_count` is the number of transforms, the
`objects` list has length `min object_count 10`, every entry has exactly the
fields `name`, `type`, `location`; and on an empty scene the count is `0` and
the list is empty. -/
theorem c8_get_scene_info_shape (s : Scene) :
    jkeys (objFields (MayaMCPServer.get_scene_info s))
      = [kName, kObjectCount, kObjects, kMaterialsCount]
    ∧ jget (objFields (MayaMCPServer.get_scene_info s)) kObjectCount
      = some (J.num (Int.ofNat s.transforms.length))
    ∧ (∃ xs, jget (objFields (MayaMCPServer.get_scene_info s)) kObjects = some (J.arr xs)
        ∧ jlen xs = min s.transforms.length 10
        ∧ jall entryShaped xs = true)
    ∧ (s.transforms = [] →
        jget (objFields (MayaMCPServer.get_scene_info s)) kObjectCount = some (J.num 0)
        ∧ jget (objFields (MayaMCPServer.get_scene_info s)) kObjects
          = some (J.arr JList.nil)) := by
  refine ⟨rfl, rfl, ?_, ?_⟩
  · refine ⟨toJList ((s.transforms.take 10).map scene_entry), rfl, ?_, ?_⟩
    · rw [jlen_toJList, List.length_map, List.length_take]
      exact Nat.min_comm _ _
    · refine jall_toJList entryShaped _ ?_
      intro x hx
      obtain ⟨o, _, rfl⟩ := List.mem_map.mp hx
      exact entryShaped_scene_entry o
  · intro h
    constructor
    · have h0 : jget (objFields (MayaMCPServer.get_scene_info s)) kObjectCount
          = some (J.num (Int.ofNat s.transforms.length)) := rfl
      rw [h0, h]
      rfl
    · have h0 : jget (objFields (MayaMCPServer.get_scene_info s)) kObjects
          = some (J.arr (toJList ((s.transforms.take 10).map scene_entry))) := rfl
      rw [h0, h]
      rfl

theorem c8_get_scene_info_shape_witness :
    jget (objFields (MayaMCPServer.get_scene_info scene0)) kObjectCount = some (J.num 0)
    ∧ jget (objFields (MayaMCPServer.get_scene_info scene0)) kObjects
      = some (J.arr JList.nil) :=
  (c8_get_scene_info_shape scene0).2.2.2 rfl

/-- C9 — The dispatch table holds only `get_scene_info` and `create_object`:
for every other command name — `about`, `modify_object`, `delete_object`
included — the internal dispatch falls off its end and returns Python `None`,
so the bytes written back are the JSON text `null` rather than a
status-bearing response; in particular the server's `modify_object` handler
method is unreachable through dispatch. -/
theorem c9_unregistered_commands_dispatch_to_none (scene : Scene) (host : HostFx)
    (fs : JObj) (h1 : cmd_name fs ≠ some kGetSceneInfo)
    (h2 : cmd_name fs ≠ some kCreateObject) :
    MayaMCPServer.execute_command_internal scene host fs = Except.ok none
    ∧ (MayaMCPServer.execute_command scene host (J.obj fs)).2 = none
    ∧ serverReply scene host (J.obj fs) = "null".data :=
  ⟨exec_internal_unregistered scene host fs h1 h2,
   (serverReply_unregistered scene host fs h1 h2).1,
   (serverReply_unregistered scene host fs h1 h2).2⟩

theorem c9_unregistered_commands_dispatch_to_none_witness :
    MayaMCPServer.execute_command_internal scene0 hostOk aboutFs = Except.ok none
    ∧ serverReply scene0 hostOk (J.obj modifyFs) = "null".data :=
  ⟨(c9_unregistered_commands_dispatch_to_none scene0 hostOk aboutFs
      (by decide) (by decide)).1,
   (c9_unregistered_commands_dispatch_to_none scene0 hostOk modifyFs
      (by decide) (by decide)).2.2⟩

/-- C10 — `create_object` takes the created object's name from the params key
`type` (defaulting to `pCube1`), ignores any `name` parameter entirely, and
its result echoes the request's `type` and `location` values (location
defaulting to `(0, 0, 0)`) rather than anything queried back from the scene:
the result depends only on the `type` and `location` lookups. -/
theorem c10_create_object_name_from_type_key :
    (∀ ps1 ps2 : JObj, jget ps1 kType = jget ps2 kType →
       jget ps1 kLocation = jget ps2 kLocation →
       MayaMCPServer.create_object ps1 = MayaMCPServer.create_object ps2)
    ∧ (∀ (ps : JObj) (v : J),
        MayaMCPServer.create_object (JObj.cons kName v ps) = MayaMCPServer.create_object ps)
    ∧ (∀ ps : JObj, jget (objFields (MayaMCPServer.create_object ps)) kName
        = some ((jget ps kType).getD (J.str kPCube1)))
    ∧ (∀ ps : JObj, jget (objFields (MayaMCPServer.create_object ps)) kLocation
        = some ((jget ps kLocation).getD zeroTriple)) := by
  refine ⟨?_, ?_, ?_, ?_⟩
  · intro ps1 ps2 ht hl
    unfold MayaMCPServer.create_object
    rw [ht, hl]
  · intro ps v
    unfold MayaMCPServer.create_object
    rw [jget_cons_of_ne (show kName ≠ kType by decide) v ps,
      jget_cons_of_ne (show kName ≠ kLocation by decide) v ps]
  · intro ps
    rfl
  · intro ps
    rfl

theorem c10_create_object_name_from_type_key_witness :
    MayaMCPServer.create_object
        (JObj.cons kName (J.str ("ignored".data))
          (JObj.cons kType (J.str ("pSphere1".data)) JObj.nil))
      = MayaMCPServer.create_object (JObj.cons kType (J.str ("pSphere1".data)) JObj.nil) :=
  c10_create_object_name_from_type_key.1
    (JObj.cons kName (J.str ("ignored".data))
      (JObj.cons kType (J.str ("pSphere1".data)) JObj.nil))
    (JObj.cons kType (J.str ("pSphere1".data)) JObj.nil)
    (by decide) (by decide)

/-- C7 — Counterexample: a timeout on the very first read, with no bytes yet
accumulated, does not end in the parse-or-incomplete handling the claim
describes for timeouts: the loop exits with no chunks and the source raises
the distinct `Exception("No data received")` instead. -/
theorem c7_counterexample_timeout_before_any_data :
    MayaConnection.receive_full_response [] [RecvEvent.timeout]
      = some (Except.error RErr.noData)
    ∧ RErr.isIncomplete RErr.noData = false := by
  decide

/-- C7 — Amended: the first read making the accumulated bytes parse as JSON
returns them immediately; an empty read before any bytes fails with the
connection-closed condition; an empty read after some bytes, or a timeout
after some bytes, ends the loop, returning the accumulated bytes if they
parse and failing with the incomplete-response condition if not — but a
timeout with nothing accumulated fails with the distinct no-data condition. -/
theorem c7_receive_loop_clauses :
    (∀ (acc d : List Char) (rest : List RecvEvent) (v : J), d ≠ [] →
       jloads (acc ++ d) = some v →
       MayaConnection.receive_full_response acc (RecvEvent.chunk d :: rest)
         = some (Except.ok (acc ++ d)))
    ∧ (∀ rest : List RecvEvent,
        MayaConnection.receive_full_response [] (RecvEvent.chunk [] :: rest)
          = some (Except.error RErr.closedNoData))
    ∧ (∀ (acc : List Char) (rest : List RecvEvent), acc ≠ [] →
        MayaConnection.receive_full_response acc (RecvEvent.chunk [] :: rest)
            = some (finish_recv acc)
          ∧ MayaConnection.receive_full_response acc (RecvEvent.timeout :: rest)
            = some (finish_recv acc))
    ∧ (∀ (acc : List Char) (v : J), jloads acc = some v → acc ≠ [] →
        finish_recv acc = Except.ok acc)
    ∧ (∀ acc : List Char, acc ≠ [] → jloads acc = none →
        finish_recv acc = Except.error RErr.incomplete)
    ∧ (∀ rest : List RecvEvent,
        MayaConnection.receive_full_response [] (RecvEvent.timeout :: rest)
          = some (Except.error RErr.noData)) := by
  refine ⟨?_, ?_, ?_, ?_, ?_, ?_⟩
  · intro acc d rest v hd hjv
    simp [MayaConnection.receive_full_response, hd, hjv]
  · intro rest
    rfl
  · intro acc rest hacc
    refine ⟨?_, rfl⟩
    simp [MayaConnection.receive_full_response, hacc]
  · intro acc v hjv hacc
    simp [finish_recv, hacc, hjv]
  · intro acc hacc hjn
    simp [finish_recv, hacc, hjn]
  · intro rest
    rfl

theorem c7_receive_loop_clauses_witness :
    MayaConnection.receive_full_response [] [RecvEvent.chunk (serJ J.null)]
      = some (Except.ok ([] ++ serJ J.null))
    ∧ MayaConnection.receive_full_response ['n'] [RecvEvent.timeout]
      = some (finish_recv ['n'])
    ∧ finish_recv ['n'] = Except.error RErr.incomplete := by
  refine ⟨?_, ?_, ?_⟩
  · exact c7_receive_loop_clauses.1 [] (serJ J.null) [] J.null (by decide) (by decide)
  · exact (c7_receive_loop_clauses.2.2.1 ['n'] [] (by decide)).2
  · exact c7_receive_loop_clauses.2.2.2.2.1 ['n'] (by decide) (by decide)

/-- C6 — `send_command` on a full response: an `error` status fails carrying
the response's message (default `Unknown error from Maya`) and the held
connection is set to `none`; a non-error parsed object response returns its
`result` mapping (the empty mapping when absent) and keeps the connection;
and every failing call, at any step, leaves the held connection `none` before
the failure is propagated. -/
theorem c6_send_command_result_error_and_teardown (c : MayaConnection)
    (data : List Char) (fs : JObj) (hj : jloads data = some (J.obj fs)) :
    (jget fs kStatus = some (J.str kError) →
       MayaConnection.send_command (some c) true (Except.ok data)
         = (none, Except.error (SendFail.mayaErr ((jget fs kMessage).getD
             (J.str kUnknownMaya)))))
    ∧ (statusIsError fs = false →
       MayaConnection.send_command (some c) true (Except.ok data)
         = (some c, Except.ok ((jget fs kResult).getD (J.obj JObj.nil))))
    ∧ (∀ (st : Option MayaConnection) (writeOk : Bool)
         (recv : Except RErr (List Char)) (e : SendFail),
        (MayaConnection.send_command st writeOk recv).2 = Except.error e →
        (MayaConnection.send_command st writeOk recv).1 = none) := by
  refine ⟨?_, ?_, ?_⟩
  · intro hs
    have hb : statusIsError fs = true := by simp [statusIsError, hs]
    simp [MayaConnection.send_command, hj, hb]
  · intro hb
    simp [MayaConnection.send_command, hj, hb]
  · intro st writeOk recv e h
    cases st with
    | none => rfl
    | some c2 =>
      cases writeOk with
      | false => rfl
      | true =>
        cases recv with
        | error e2 => rfl
        | ok d2 =>
          cases hjl : jloads d2 with
          | none => simp [MayaConnection.send_command, hjl]
          | some v =>
            cases v with
            | obj fs2 =>
              cases hb : statusIsError fs2 with
              | true => simp [MayaConnection.send_command, hjl, hb]
              | false =>
                exfalso
                simp [MayaConnection.send_command, hjl, hb] at h
            | null => simp [MayaConnection.send_command, hjl]
            | bool b => simp [MayaConnection.send_command, hjl]
            | num n => simp [MayaConnection.send_command, hjl]
            | str s => simp [MayaConnection.send_command, hjl]
            | arr xs => simp [MayaConnection.send_command, hjl]

theorem c6_send_command_result_error_and_teardown_witness :
    MayaConnection.send_command (some freshConn) true
        (Except.ok (serJ (errorResp ("boom".data))))
      = (none, Except.error (SendFail.mayaErr (J.str ("boom".data)))) := by
  have h := (c6_send_command_result_error_and_teardown freshConn
      (serJ (errorResp ("boom".data)))
      (JObj.cons kStatus (J.str kError) (JObj.cons kMessage (J.str ("boom".data)) JObj.nil))
      (by decide)).1 (by decide)
  exact h.trans (by decide)

/-- C2 — Counterexample: for the well-formed command `about` — no handler is
registered for it — the dispatch produces Python `None` and the bytes written
back are the four characters of the JSON text `null`, not a response object
of the form the claim requires. -/
theorem c2_counterexample_unknown_command_replied_null :
    MayaMCPServer.execute_command scene0 hostOk (J.obj aboutFs) = (ExecPath.direct, none)
    ∧ serverReply scene0 hostOk (J.obj aboutFs) = "null".data := by
  decide

/-- C2 — Amended: for every sequence of well-formed commands fed in order
(each as nonempty chunks with read gaps), the server writes back exactly one
JSON reply per command, on the same connection, in request order; the reply
is a status-bearing response for the registered names (`success`-shaped, or
`error`-shaped exactly when the handler raises), but for an unregistered name
it is the JSON text `null`, not a status-bearing response. -/
theorem c2_one_reply_per_command_in_order (scene : Scene) (host : HostFx)
    (chunkss : List (List (List Char))) (cmds : List JObj)
    (hall : List.Forall₂ (fun ch fs =>
      ch ≠ [] ∧ (∀ d ∈ ch, d ≠ []) ∧ ch.join = serJ (J.obj fs)) chunkss cmds) :
    (MayaMCPServer.handle_client scene host [] chunkss.join).map Prod.snd
      = cmds.map (fun fs => serverReply scene host (J.obj fs))
    ∧ (∀ fs ∈ cmds,
        (cmd_name fs = some kGetSceneInfo ∨ cmd_name fs = some kCreateObject) →
        ∃ r, (MayaMCPServer.execute_command scene host (J.obj fs)).2 = some r
          ∧ ((∃ x, r = successResp x) ∨ ∃ m, r = errorResp m))
    ∧ (∀ fs ∈ cmds,
        (cmd_name fs ≠ some kGetSceneInfo ∧ cmd_name fs ≠ some kCreateObject) →
        serverReply scene host (J.obj fs) = "null".data)
    ∧ (∀ (fs : JObj) (m : List Char),
        MayaMCPServer.execute_command_internal scene host fs = Except.error m →
        (MayaMCPServer.execute_command scene host (J.obj fs)).2 = some (errorResp m)) := by
  refine ⟨?_, ?_, ?_, ?_⟩
  · rw [handle_client_stream scene host chunkss cmds hall, List.map_map]
    rfl
  · intro fs _ h
    exact exec_registered_status_shaped scene host fs h
  · intro fs _ h
    exact (serverReply_unregistered scene host fs h.1 h.2).2
  · intro fs m hm
    simp [MayaMCPServer.execute_command, hm]

theorem c2_one_reply_per_command_in_order_witness :
    (MayaMCPServer.handle_client scene0 hostOk []
        [[serJ (J.obj pingFs)], [serJ (J.obj aboutFs)]].join).map Prod.snd
      = [pingFs, aboutFs].map (fun fs => serverReply scene0 hostOk (J.obj fs)) := by
  have hall : List.Forall₂ (fun ch fs =>
      ch ≠ [] ∧ (∀ d ∈ ch, d ≠ []) ∧ ch.join = serJ (J.obj fs))
      [[serJ (J.obj pingFs)], [serJ (J.obj aboutFs)]] [pingFs, aboutFs] :=
    List.Forall₂.cons ⟨by decide, by decide, by simp⟩
      (List.Forall₂.cons ⟨by decide, by decide, by simp⟩ List.Forall₂.nil)
  exact (c2_one_reply_per_command_in_order scene0 hostOk _ _ hall).1

/-- C3 — Framing round-trip: serializing a command object and feeding the
bytes to the receive loop in arbitrary nonempty chunks (byte-by-byte
included, with a read gap after each chunk) reconstructs exactly the
identical command at the first successful parse and dispatches it once; no
earlier read produces a reply, because every proper prefix of the serialized
bytes fails to parse. -/
theorem c3_framing_roundtrip_arbitrary_chunks (scene : Scene) (host : HostFx)
    (fs : JObj) (chunks : List (List Char))
    (hprint : printableJ (J.obj fs) = true)
    (hjoin : chunks.join = serJ (J.obj fs)) (hch : chunks ≠ [])
    (hne : ∀ c ∈ chunks, c ≠ []) :
    MayaMCPServer.handle_client scene host [] chunks
      = [(J.obj fs, serverReply scene host (J.obj fs))]
    ∧ ∀ p, strictPre p (serJ (J.obj fs)) → jloads p = none := by
  constructor
  · have h := handle_client_one scene host fs chunks [] [] (by simpa using hjoin) hch hne
    simpa [handle_client_nil] using h
  · exact fun p hp => jloads_cut_obj fs hp

theorem c3_framing_roundtrip_arbitrary_chunks_witness :
    MayaMCPServer.handle_client scene0 hostOk []
        ((serJ (J.obj pingFs)).map (fun c => [c]))
      = [(J.obj pingFs, serverReply scene0 hostOk (J.obj pingFs))] :=
  (c3_framing_roundtrip_arbitrary_chunks scene0 hostOk pingFs
    ((serJ (J.obj pingFs)).map (fun c => [c]))
    (by decide) (by decide) (by decide) (by decide)).1
